import Mathlib

/-!
# Verification of the smart-river-name-placement core pipeline

Shallow embedding of the JavaScript source (RiverPathParser, WKTParser,
GeometryAnalyzer, PlacementScorer, TextPlacer) over the real numbers.
JavaScript `number` arithmetic is modelled by `ℝ`; `Math.sqrt`, `Math.acos`
are `Real.sqrt`, `Real.arccos`.  JavaScript `null` width entries are
`Option.none`; the JS coercion `null < x` (null compares as 0) is modelled
by `Option.getD w 0 < x`.  Array reads `a[i]` that the source guards with
an index check are modelled with `List.getD` (the default is unreachable
under the guard).
-/

namespace RiverPlacement

open scoped BigOperators

/-- A planar point, as in the source's `{x, y}` objects. -/
structure Point where
  x : ℝ
  y : ℝ

/-- Axis-aligned bounding box, as computed by `RiverPathParser.parse`. -/
structure Bounds where
  minX : ℝ
  maxX : ℝ
  minY : ℝ
  maxY : ℝ

/-- The `RiverPath` object produced by `RiverPathParser.parse`:
`widths = none` models JS `widths: null` (no width data at all);
a `none` entry inside the list models a JS `null` width entry. -/
structure RiverPath where
  points : List Point
  widths : Option (List (Option ℝ))
  length : ℝ
  bounds : Bounds

/-- Indexed point access `points[i]`; all source reads are guarded by
an index-in-range check, so the default is unreachable at call sites. -/
def pt (ps : List Point) (i : ℕ) : Point :=
  ps.getD i ⟨0, 0⟩

/-- `Math.sqrt(Math.pow(q.x-p.x,2) + Math.pow(q.y-p.y,2))`. -/
noncomputable def ptDist (p q : Point) : ℝ :=
  Real.sqrt ((q.x - p.x) ^ 2 + (q.y - p.y) ^ 2)

/-- The parser's total-length loop: sum of consecutive distances. -/
noncomputable def totalLen (ps : List Point) : ℝ :=
  ∑ i in Finset.range (ps.length - 1), ptDist (pt ps i) (pt ps (i + 1))

/-- The parser's bounding-box loop (fold of min/max seeded at `points[0]`;
folding over all points is equivalent since min/max are idempotent). -/
noncomputable def computeBounds (ps : List Point) : Bounds :=
  { minX := (ps.map Point.x).foldl min (pt ps 0).x
    maxX := (ps.map Point.x).foldl max (pt ps 0).x
    minY := (ps.map Point.y).foldl min (pt ps 0).y
    maxY := (ps.map Point.y).foldl max (pt ps 0).y }

/-- `RiverPathParser.validate`.  A coordinate is a list of numbers; the
source's array-ness and is-finite checks are vacuous in the typed `ℝ`
embedding.  Returns `some errorMessage` when invalid (the per-index
interpolation of the source's messages is dropped). -/
def validateCoords (cs : List (List ℝ)) : Option String :=
  if cs.length < 3 then some "River path must have at least 3 coordinate points"
  else if cs.all fun c => c.length == 2 || c.length == 3 then none
  else some "Coordinate must have 2 or 3 elements"

/-- `{x: coord[0], y: coord[1]}`. -/
def coordPoint (c : List ℝ) : Point :=
  ⟨c.getD 0 0, c.getD 1 0⟩

/-- The point-extraction part of the parser's main loop. -/
def extractPoints (cs : List (List ℝ)) : List Point :=
  cs.map coordPoint

/-- The width-extraction part of the parser's main loop, with the
`hasWidthData` flag threaded as the Bool argument: a 3-element coordinate
pushes its width and sets the flag; a 2-element coordinate pushes `null`
only when the flag is already set, otherwise pushes nothing. -/
def extractWidths : List (List ℝ) → Bool → List (Option ℝ)
  | [], _ => []
  | c :: rest, hw =>
    if c.length = 3 then some (c.getD 2 0) :: extractWidths rest true
    else if hw then none :: extractWidths rest hw
    else extractWidths rest hw

/-- Final value of the parser's `hasWidthData` flag. -/
def anyWidth (cs : List (List ℝ)) : Bool :=
  cs.any fun c => c.length == 3

/-- `RiverPathParser.parse` on a coordinate array (the WKT branch is
modelled separately). -/
noncomputable def parseCoords (cs : List (List ℝ)) : Except String RiverPath :=
  match validateCoords cs with
  | some e => .error e
  | none =>
    .ok { points := extractPoints cs
          widths := if anyWidth cs then some (extractWidths cs false) else none
          length := totalLen (extractPoints cs)
          bounds := computeBounds (extractPoints cs) }

/-- Componentwise evaluation helper for concrete parses. -/
theorem parseCoords_eval {cs : List (List ℝ)} {p : RiverPath}
    (hv : validateCoords cs = none)
    (hpts : extractPoints cs = p.points)
    (hw : (if anyWidth cs then some (extractWidths cs false) else none) = p.widths)
    (hlen : totalLen p.points = p.length)
    (hb : computeBounds p.points = p.bounds) :
    parseCoords cs = .ok p := by
  unfold parseCoords
  rw [hv, hpts, hw, hlen, hb]

/-! ## Parser lemmas -/

/-- Once `hasWidthData` is true, every remaining coordinate contributes
exactly one width entry, aligned with its index. -/
theorem extractWidths_true (cs : List (List ℝ)) :
    extractWidths cs true =
      cs.map fun c => if c.length = 3 then some (c.getD 2 0) else none := by
  induction cs with
  | nil => rfl
  | cons c rest ih =>
    by_cases h : c.length = 3 <;> simp [extractWidths, h, ih]

theorem parseCoords_ok_points {cs : List (List ℝ)} {p : RiverPath}
    (h : parseCoords cs = .ok p) : p.points = extractPoints cs := by
  unfold parseCoords at h
  cases hv : validateCoords cs with
  | some e => rw [hv] at h; exact absurd h (by simp)
  | none => rw [hv] at h; simp at h; rw [← h]

theorem parseCoords_ok_widths {cs : List (List ℝ)} {p : RiverPath}
    (h : parseCoords cs = .ok p) :
    p.widths = if anyWidth cs then some (extractWidths cs false) else none := by
  unfold parseCoords at h
  cases hv : validateCoords cs with
  | some e => rw [hv] at h; exact absurd h (by simp)
  | none => rw [hv] at h; simp at h; rw [← h]

theorem parseCoords_ok_length {cs : List (List ℝ)} {p : RiverPath}
    (h : parseCoords cs = .ok p) : p.length = totalLen p.points := by
  unfold parseCoords at h
  cases hv : validateCoords cs with
  | some e => rw [hv] at h; exact absurd h (by simp)
  | none => rw [hv] at h; simp at h; rw [← h]

theorem parseCoords_ok_card {cs : List (List ℝ)} {p : RiverPath}
    (h : parseCoords cs = .ok p) : 3 ≤ cs.length := by
  unfold parseCoords at h
  cases hv : validateCoords cs with
  | some e => rw [hv] at h; exact absurd h (by simp)
  | none =>
    unfold validateCoords at hv
    by_cases hlen : cs.length < 3
    · rw [if_pos hlen] at hv; exact absurd hv (by simp)
    · omega

/-! ## C5: parse preserves point count; width alignment -/

/-- C5 amended claim.  `points.length` always equals the input length.  The
same-length / per-index width preservation holds provided the FIRST
coordinate carries a width (the source only appends a `null` placeholder
once `hasWidthData` is already set, so points before the first
width-carrying point contribute no width entry at all, misaligning the
array — see the counterexample). -/
theorem C5_parse_points_and_firstWidth_alignment
    (cs : List (List ℝ)) (p : RiverPath) (h : parseCoords cs = .ok p) :
    p.points.length = cs.length ∧
    (∀ c0, cs.head? = some c0 → c0.length = 3 →
      ∃ ws, p.widths = some ws ∧ ws.length = cs.length ∧
        ∀ i : ℕ, ws[i]? = (cs[i]?).map
          fun c => if c.length = 3 then some (c.getD 2 0) else none) := by
  constructor
  · rw [parseCoords_ok_points h]
    simp [extractPoints]
  · intro c0 hc0 hlen3
    obtain ⟨rest, rfl⟩ : ∃ rest, cs = c0 :: rest := by
      cases cs with
      | nil => simp at hc0
      | cons c rest => simp at hc0; exact ⟨rest, by rw [hc0]⟩
    have hexw : extractWidths (c0 :: rest) false =
        (c0 :: rest).map fun c => if c.length = 3 then some (c.getD 2 0) else none := by
      rw [show extractWidths (c0 :: rest) false =
            some (c0.getD 2 0) :: extractWidths rest true by
          simp [extractWidths, hlen3]]
      rw [extractWidths_true]
      simp [hlen3]
    have hany : anyWidth (c0 :: rest) = true := by
      simp [anyWidth]
      exact Or.inl hlen3
    refine ⟨extractWidths (c0 :: rest) false, ?_, ?_, ?_⟩
    · rw [parseCoords_ok_widths h, hany, if_pos rfl]
    · rw [hexw]
      simp
    · intro i
      rw [hexw]
      exact List.getElem?_map _ _ _

/-- The concrete parse for the C5 counterexample: the middle coordinate is
the first one with a width, so the earlier point contributes no entry. -/
noncomputable def pathC5 : RiverPath :=
  { points := [⟨0, 0⟩, ⟨1, 0⟩, ⟨2, 0⟩]
    widths := some [some 5, none]
    length := 2
    bounds := ⟨0, 2, 0, 0⟩ }

/-- C5 counterexample: input `[[0,0],[1,0,5],[2,0]]` has 3 points and a
width on point 1, but the stored widths list is `[5, null]` — length 2,
not 3, and the width 5 sits at index 0 instead of index 1, refuting the
claimed same-length / per-point preservation. -/
theorem C5_counterexample :
    parseCoords [[0, 0], [1, 0, 5], [2, 0]] = .ok pathC5 ∧
    pathC5.points.length = 3 ∧
    pathC5.widths = some [some 5, none] ∧
    ¬ (∀ ws, pathC5.widths = some ws → ws.length = pathC5.points.length) := by
  refine ⟨?_, by simp [pathC5], by simp [pathC5], ?_⟩
  · apply parseCoords_eval
    · rfl
    · simp [extractPoints, coordPoint, pathC5]
    · simp [anyWidth, extractWidths, pathC5]
    · unfold totalLen pt
      norm_num [pathC5, Finset.sum_range_succ, ptDist, Real.sqrt_one]
    · unfold computeBounds pt
      norm_num [pathC5, min_def, max_def, Bounds.mk.injEq]
  · intro hclaim
    have := hclaim [some 5, none] (by simp [pathC5])
    simp [pathC5] at this

/-- Expected parse result for the C5 witness input (first point carries
a width, so alignment holds). -/
noncomputable def pathC5w : RiverPath :=
  { points := [⟨0, 0⟩, ⟨1, 0⟩, ⟨2, 0⟩]
    widths := some [some 5, none, some 6]
    length := 2
    bounds := ⟨0, 2, 0, 0⟩ }

theorem parseCoords_eval_C5w :
    parseCoords [[0, 0, 5], [1, 0], [2, 0, 6]] = .ok pathC5w := by
  apply parseCoords_eval
  · rfl
  · simp [extractPoints, coordPoint, pathC5w]
  · simp [anyWidth, extractWidths, pathC5w]
  · unfold totalLen pt
    norm_num [pathC5w, Finset.sum_range_succ, ptDist, Real.sqrt_one]
  · unfold computeBounds pt
    norm_num [pathC5w, min_def, max_def, Bounds.mk.injEq]

/-- C5 witness: the amended theorem applied to the concrete input
`[[0,0,5],[1,0],[2,0,6]]`. -/
theorem C5_witness :
    pathC5w.points.length = 3 ∧
    ∃ ws, pathC5w.widths = some ws ∧ ws.length = 3 := by
  have h := C5_parse_points_and_firstWidth_alignment
    [[0, 0, 5], [1, 0], [2, 0, 6]] pathC5w parseCoords_eval_C5w
  refine ⟨h.1, ?_⟩
  obtain ⟨ws, hws, hlen, _⟩ := h.2 [0, 0, 5] (by simp) (by simp)
  exact ⟨ws, hws, hlen⟩

/-! ## GeometryAnalyzer -/

/-- A rejected/identified segment `{startIdx, endIdx, length, reason}`. -/
structure Seg where
  startIdx : ℕ
  endIdx : ℕ
  length : ℝ
  reason : String

/-- `getEdgeSections` result `{start, end}` (renamed: `end` is reserved). -/
structure EdgeSections where
  startSec : Seg
  endSec : Seg

/-- `GeometryAnalyzer.analyzeGeometry` result. -/
structure GeometryMetrics where
  curvatures : List ℝ
  sharpCurves : List Seg
  narrowSections : List Seg
  edgeSections : EdgeSections
  avgCurvature : ℝ
  maxCurvature : ℝ

/-- `GeometryAnalyzer._calculateSegmentLength`. -/
noncomputable def calcSegLength (ps : List Point) (startIdx endIdx : ℕ) : ℝ :=
  ∑ i in Finset.Ico startIdx endIdx, ptDist (pt ps i) (pt ps (i + 1))

/-- The raw three-point curvature computed by the interior loop of
`calculateCurvature`. -/
noncomputable def rawCurvature (ps : List Point) (i : ℕ) : ℝ :=
  let p0 := pt ps (i - 1)
  let p1 := pt ps i
  let p2 := pt ps (i + 1)
  let v1x := p1.x - p0.x
  let v1y := p1.y - p0.y
  let v2x := p2.x - p1.x
  let v2y := p2.y - p1.y
  let mag1 := Real.sqrt (v1x * v1x + v1y * v1y)
  let mag2 := Real.sqrt (v2x * v2x + v2y * v2y)
  if mag1 = 0 ∨ mag2 = 0 then 0
  else
    let cosAngle := (v1x * v2x + v1y * v2y) / (mag1 * mag2)
    let clampedCos := max (-1) (min 1 cosAngle)
    let angleDeg := Real.arccos clampedCos * (180 / Real.pi)
    let avgDistance := (mag1 + mag2) / 2
    if avgDistance > 0 then angleDeg / avgDistance else 0

/-- Entry `i` of the source's `rawCurvatures` array (filled with 0 and
only written for interior indices `1 ≤ i ≤ n-2`). -/
noncomputable def rawCurvatureArr (ps : List Point) (i : ℕ) : ℝ :=
  if 1 ≤ i ∧ i + 1 < ps.length then rawCurvature ps i else 0

/-- `GeometryAnalyzer.calculateCurvature`: raw values then the window-3
moving average with pinned-zero endpoints. -/
noncomputable def calculateCurvature (p : RiverPath) : List ℝ :=
  let ps := p.points
  let n := ps.length
  if n < 3 then []
  else (List.range n).map fun i =>
    if i = 0 ∨ i = n - 1 then 0
    else if i = 1 then (rawCurvatureArr ps i + rawCurvatureArr ps (i + 1)) / 2
    else if i = n - 2 then (rawCurvatureArr ps (i - 1) + rawCurvatureArr ps i) / 2
    else (rawCurvatureArr ps (i - 1) + rawCurvatureArr ps i + rawCurvatureArr ps (i + 1)) / 3

/-- The maximal-run state machine shared by `findSharpCurves` and
`findNarrowSections` (the `inSection` flag is `state.isSome`, the open
run's start is the `some` payload).  Returns `(startIdx, endIdx)` of each
maximal run of `P` over indices `< n`. -/
def runScan (P : ℕ → Prop) [DecidablePred P] (n i : ℕ) (state : Option ℕ) :
    List (ℕ × ℕ) :=
  if _h : i < n then
    if P i then
      match state with
      | none => runScan P n (i + 1) (some i)
      | some s => runScan P n (i + 1) (some s)
    else
      match state with
      | none => runScan P n (i + 1) none
      | some s => (s, i - 1) :: runScan P n (i + 1) none
  else
    match state with
    | none => []
    | some s => [(s, n - 1)]
termination_by n - i

/-- `GeometryAnalyzer.findSharpCurves`. -/
noncomputable def findSharpCurves (p : RiverPath) (threshold : ℝ) : List Seg :=
  let curvatures := calculateCurvature p
  if p.points.length < 3 then []
  else
    (runScan (fun i => curvatures.getD i 0 > threshold) curvatures.length 0 none).map
      fun r => { startIdx := r.1, endIdx := r.2,
                 length := calcSegLength p.points r.1 r.2, reason := "sharp curve" }

/-- `GeometryAnalyzer.findNarrowSections`.  The JS comparison
`widths[i] < minWidth` coerces a `null` entry to 0, which is modelled by
`(ws.getD i none).getD 0`. -/
noncomputable def findNarrowSections (p : RiverPath) (minWidth : ℝ) : List Seg :=
  match p.widths with
  | none => []
  | some ws =>
    if ws.length = 0 then []
    else
      (runScan (fun i => (ws.getD i none).getD 0 < minWidth) ws.length 0 none).map
        fun r => { startIdx := r.1, endIdx := r.2,
                   length := calcSegLength p.points r.1 r.2, reason := "narrow section" }

/-- Forward 10%-threshold scan of `getEdgeSections` (returns `i+1` at the
first crossing, 0 if the loop completes — the caller applies the
fallback). -/
noncomputable def scanForward (ps : List Point) (thr : ℝ) (i : ℕ) (acc : ℝ) : ℕ :=
  if _h : i < ps.length - 1 then
    if acc + ptDist (pt ps i) (pt ps (i + 1)) ≥ thr then i + 1
    else scanForward ps thr (i + 1) (acc + ptDist (pt ps i) (pt ps (i + 1)))
  else 0
termination_by ps.length - 1 - i

/-- Backward 10%-threshold scan of `getEdgeSections` (returns `i-1` at the
first crossing, the initial `points.length - 1` if the loop completes). -/
noncomputable def scanBackward (ps : List Point) (thr : ℝ) (i : ℕ) (acc : ℝ) : ℕ :=
  if _h : 0 < i then
    if acc + ptDist (pt ps i) (pt ps (i - 1)) ≥ thr then i - 1
    else scanBackward ps thr (i - 1) (acc + ptDist (pt ps i) (pt ps (i - 1)))
  else ps.length - 1
termination_by i

/-- `GeometryAnalyzer.getEdgeSections`. -/
noncomputable def getEdgeSections (p : RiverPath) : EdgeSections :=
  let ps := p.points
  let edgeThreshold := p.length * 0.1
  let s0 := scanForward ps edgeThreshold 0 0
  let startEndIdx := if s0 = 0 ∧ 1 < ps.length then ps.length - 1 else s0
  let e0 := scanBackward ps edgeThreshold (ps.length - 1) 0
  let endStartIdx := if e0 = ps.length - 1 ∧ 1 < ps.length then 0 else e0
  { startSec := { startIdx := 0, endIdx := startEndIdx,
                  length := calcSegLength ps 0 startEndIdx, reason := "edge section" }
    endSec := { startIdx := endStartIdx, endIdx := ps.length - 1,
                length := calcSegLength ps endStartIdx (ps.length - 1),
                reason := "edge section" } }

/-- `Math.max(...list)` under the source's non-empty guard
(0 for the guarded empty case). -/
noncomputable def listMaxD : List ℝ → ℝ
  | [] => 0
  | x :: xs => xs.foldl max x

/-- `GeometryAnalyzer.analyzeGeometry` (the source's local `curvatures`
variable is written out as `calculateCurvature p` at each use). -/
noncomputable def analyzeGeometry (p : RiverPath) : GeometryMetrics :=
  { curvatures := calculateCurvature p
    sharpCurves := findSharpCurves p 30
    narrowSections :=
      match p.widths with
      | some ws => if 0 < ws.length then findNarrowSections p 10 else []
      | none => []
    edgeSections := getEdgeSections p
    avgCurvature :=
      if 2 < (calculateCurvature p).length then
        (∑ i in Finset.Ico 1 ((calculateCurvature p).length - 1),
          (calculateCurvature p).getD i 0) /
          (((calculateCurvature p).length : ℝ) - 2)
      else 0
    maxCurvature := listMaxD (calculateCurvature p) }

/-! ## C8: curvature of the explicit 90° path -/

theorem sqrt_100 : Real.sqrt 100 = 10 := by
  rw [show (100 : ℝ) = 10 ^ 2 by norm_num]
  exact Real.sqrt_sq (by norm_num)

/-- The right-angle path of the spec's concrete scenario. -/
noncomputable def pathC8 : RiverPath :=
  { points := [⟨0, 0⟩, ⟨10, 0⟩, ⟨10, 10⟩]
    widths := none
    length := 20
    bounds := ⟨0, 10, 0, 10⟩ }

theorem rawCurvature_eval_C8 :
    rawCurvature [⟨0, 0⟩, ⟨10, 0⟩, ⟨10, 10⟩] 1 = 9 := by
  unfold rawCurvature pt
  norm_num [sqrt_100, min_def, max_def]
  have hpi : Real.pi ≠ 0 := Real.pi_ne_zero
  field_simp
  ring

theorem calculateCurvature_eval_C8 : calculateCurvature pathC8 = [0, 9 / 2, 0] := by
  unfold calculateCurvature
  rw [show pathC8.points = [⟨0, 0⟩, ⟨10, 0⟩, ⟨10, 10⟩] from rfl]
  norm_num
  rw [show List.range 3 = [0, 1, 2] from rfl]
  simp only [List.map_cons, List.map_nil]
  norm_num [rawCurvatureArr, rawCurvature_eval_C8]

/-- C8 counterexample: on `[(0,0),(10,0),(10,10)]` the smoothed curvature
at interior index 1 is 4.5 — the raw 90° turn contributes 90/10 = 9
degrees per unit (divided by the average segment length 10), halved by
smoothing — so it is not ≈45: it differs from 45 by 40.5. -/
theorem C8_counterexample :
    calculateCurvature pathC8 = [0, 9 / 2, 0] ∧
    (9 : ℝ) / 2 ≠ 45 ∧ 40 < |(9 : ℝ) / 2 - 45| := by
  refine ⟨calculateCurvature_eval_C8, by norm_num, ?_⟩
  rw [abs_of_nonpos (by norm_num)]
  norm_num

/-- C8 amended: indices 0 and 2 of the smoothed profile are exactly 0 and
the interior index 1 is strictly positive; its value is 4.5 (not ≈45),
because the raw angle is divided by the average segment length (10)
before the smoothing halves it. -/
theorem C8_smoothed_curvature_of_right_angle :
    (calculateCurvature pathC8).getD 0 0 = 0 ∧
    (calculateCurvature pathC8).getD 2 0 = 0 ∧
    0 < (calculateCurvature pathC8).getD 1 0 ∧
    (calculateCurvature pathC8).getD 1 0 = 9 / 2 := by
  rw [calculateCurvature_eval_C8]
  norm_num

/-! ## runScan characterization -/

theorem runScan_sound_aux (P : ℕ → Prop) [DecidablePred P] (n : ℕ) :
    ∀ m i state, n - i ≤ m →
      (∀ s, state = some s → s < n ∧ s < i ∧ ∀ k, s ≤ k → k < i → P k) →
      ∀ r ∈ runScan P n i state, ∀ j, r.1 ≤ j → j ≤ r.2 → j < n ∧ P j := by
  intro m
  induction m with
  | zero =>
    intro i state hm hinv r hr j hj1 hj2
    have hni : ¬ i < n := by omega
    rw [runScan.eq_def, dif_neg hni] at hr
    cases state with
    | none => simp at hr
    | some s =>
      simp at hr
      obtain ⟨hs0, hs1, hs2⟩ := hinv s rfl
      rw [hr] at hj1 hj2
      simp at hj1 hj2
      exact ⟨by omega, hs2 j hj1 (by omega)⟩
  | succ m ih =>
    intro i state hm hinv r hr j hj1 hj2
    by_cases hlt : i < n
    · rw [runScan.eq_def, dif_pos hlt] at hr
      by_cases hP : P i
      · rw [if_pos hP] at hr
        cases state with
        | none =>
          refine ih (i + 1) (some i) (by omega) ?_ r hr j hj1 hj2
          intro s hs
          injection hs with hs
          subst hs
          exact ⟨hlt, by omega, fun k hk1 hk2 => by
            have : k = i := by omega
            rw [this]; exact hP⟩
        | some s =>
          refine ih (i + 1) (some s) (by omega) ?_ r hr j hj1 hj2
          intro s2 hs2
          injection hs2 with hs2
          subst hs2
          obtain ⟨h0, h1, h2⟩ := hinv s rfl
          refine ⟨h0, by omega, fun k hk1 hk2 => ?_⟩
          by_cases hk : k < i
          · exact h2 k hk1 hk
          · have : k = i := by omega
            rw [this]; exact hP
      · rw [if_neg hP] at hr
        cases state with
        | none =>
          exact ih (i + 1) none (by omega) (fun s hs => by simp at hs) r hr j hj1 hj2
        | some s =>
          rcases List.mem_cons.mp hr with hr1 | hr2
          · obtain ⟨hs0, hs1, hs2⟩ := hinv s rfl
            rw [hr1] at hj1 hj2
            simp at hj1 hj2
            exact ⟨by omega, hs2 j hj1 (by omega)⟩
          · exact ih (i + 1) none (by omega) (fun s hs => by simp at hs) r hr2 j hj1 hj2
    · rw [runScan.eq_def, dif_neg hlt] at hr
      cases state with
      | none => simp at hr
      | some s =>
        simp at hr
        obtain ⟨hs0, hs1, hs2⟩ := hinv s rfl
        rw [hr] at hj1 hj2
        simp at hj1 hj2
        exact ⟨by omega, hs2 j hj1 (by omega)⟩

/-- Every index inside an emitted run satisfies `P` and is in range. -/
theorem runScan_sound (P : ℕ → Prop) [DecidablePred P] (n : ℕ)
    (r : ℕ × ℕ) (hr : r ∈ runScan P n 0 none) (j : ℕ)
    (hj1 : r.1 ≤ j) (hj2 : j ≤ r.2) : j < n ∧ P j :=
  runScan_sound_aux P n n 0 none (by omega) (fun s hs => by simp at hs) r hr j hj1 hj2

theorem runScan_cover_aux (P : ℕ → Prop) [DecidablePred P] (n : ℕ) :
    ∀ m i state, n - i ≤ m →
      (∀ s, state = some s → s < n ∧ s < i ∧ ∀ k, s ≤ k → k < i → P k) →
      ∀ j, j < n → P j →
      (∀ s, state = some s → s ≤ j) →
      (state = none → i ≤ j) →
      ∃ r ∈ runScan P n i state, r.1 ≤ j ∧ j ≤ r.2 := by
  intro m
  induction m with
  | zero =>
    intro i state hm hinv j hjn hPj hbs hbn
    have hni : ¬ i < n := by omega
    rw [runScan.eq_def, dif_neg hni]
    cases state with
    | none => exact absurd (hbn rfl) (by omega)
    | some s =>
      exact ⟨(s, n - 1), by simp, hbs s rfl, show j ≤ n - 1 by omega⟩
  | succ m ih =>
    intro i state hm hinv j hjn hPj hbs hbn
    by_cases hlt : i < n
    · rw [runScan.eq_def, dif_pos hlt]
      by_cases hP : P i
      · rw [if_pos hP]
        cases state with
        | none =>
          refine ih (i + 1) (some i) (by omega) ?_ j hjn hPj ?_ (by simp)
          · intro s hs
            injection hs with hs
            subst hs
            exact ⟨hlt, by omega, fun k hk1 hk2 => by
              have : k = i := by omega
              rw [this]; exact hP⟩
          · intro s hs
            injection hs with hs
            subst hs
            exact hbn rfl
        | some s =>
          refine ih (i + 1) (some s) (by omega) ?_ j hjn hPj ?_ (by simp)
          · intro s2 hs2
            injection hs2 with hs2
            subst hs2
            obtain ⟨h0, h1, h2⟩ := hinv s rfl
            refine ⟨h0, by omega, fun k hk1 hk2 => ?_⟩
            by_cases hk : k < i
            · exact h2 k hk1 hk
            · have : k = i := by omega
              rw [this]; exact hP
          · intro s2 hs2
            injection hs2 with hs2
            subst hs2
            exact hbs s rfl
      · rw [if_neg hP]
        have hji : j ≠ i := fun hji => hP (hji ▸ hPj)
        cases state with
        | none =>
          refine ih (i + 1) none (by omega) (fun s hs => by simp at hs) j hjn hPj
            (fun s hs => by simp at hs) ?_
          intro _
          have := hbn rfl
          omega
        | some s =>
          by_cases hjlt : j < i
          · exact ⟨(s, i - 1), List.mem_cons_self _ _, hbs s rfl, show j ≤ i - 1 by omega⟩
          · obtain ⟨r, hrmem, hr1, hr2⟩ := ih (i + 1) none (by omega)
              (fun s hs => by simp at hs) j hjn hPj (fun s hs => by simp at hs)
              (fun _ => by omega)
            exact ⟨r, List.mem_cons_of_mem _ hrmem, hr1, hr2⟩
    · rw [runScan.eq_def, dif_neg hlt]
      cases state with
      | none => exact absurd (hbn rfl) (by omega)
      | some s =>
        exact ⟨(s, n - 1), by simp, hbs s rfl, show j ≤ n - 1 by omega⟩

/-- Every in-range index satisfying `P` is covered by some emitted run. -/
theorem runScan_cover (P : ℕ → Prop) [DecidablePred P] (n : ℕ)
    (j : ℕ) (hjn : j < n) (hPj : P j) :
    ∃ r ∈ runScan P n 0 none, r.1 ≤ j ∧ j ≤ r.2 :=
  runScan_cover_aux P n n 0 none (by omega) (fun s hs => by simp at hs) j hjn hPj
    (fun s hs => by simp at hs) (fun _ => by omega)

/-! ## C6: width-absent points and narrow sections -/

theorem findNarrowSections_some (p : RiverPath) (ws : List (Option ℝ)) (minW : ℝ)
    (hw : p.widths = some ws) :
    findNarrowSections p minW =
      if ws.length = 0 then []
      else (runScan (fun i => (ws.getD i none).getD 0 < minW) ws.length 0 none).map
        fun r => { startIdx := r.1, endIdx := r.2,
                   length := calcSegLength p.points r.1 r.2,
                   reason := "narrow section" } := by
  unfold findNarrowSections
  rw [hw]

/-- An in-range index is inside some narrow-section segment iff its width
entry compares below the threshold (with `null` comparing as 0). -/
theorem findNarrowSections_mem_iff (p : RiverPath) (ws : List (Option ℝ)) (minW : ℝ)
    (hw : p.widths = some ws) (i : ℕ) (hi : i < ws.length) :
    (∃ sg ∈ findNarrowSections p minW, sg.startIdx ≤ i ∧ i ≤ sg.endIdx) ↔
      (ws.getD i none).getD 0 < minW := by
  rw [findNarrowSections_some p ws minW hw, if_neg (by omega : ¬ ws.length = 0)]
  constructor
  · rintro ⟨sg, hsg, h1, h2⟩
    simp only [List.mem_map] at hsg
    obtain ⟨r, hr, rfl⟩ := hsg
    exact (runScan_sound _ _ r hr i h1 h2).2
  · intro hP
    obtain ⟨r, hr, h1, h2⟩ :=
      runScan_cover (fun k => (ws.getD k none).getD 0 < minW) ws.length i hi hP
    exact ⟨_, List.mem_map_of_mem _ hr, h1, h2⟩

/-- Width-aware 3-point path whose middle width entry is absent. -/
noncomputable def pathC6 : RiverPath :=
  { points := [⟨0, 0⟩, ⟨1, 0⟩, ⟨2, 0⟩]
    widths := some [some 20, none, some 20]
    length := 2
    bounds := ⟨0, 2, 0, 0⟩ }

theorem findNarrowSections_eval_C6 :
    findNarrowSections pathC6 10 = [⟨1, 1, 0, "narrow section"⟩] := by
  rw [findNarrowSections_some pathC6 [some 20, none, some 20] 10 rfl]
  rw [if_neg (by norm_num)]
  have e1 : runScan (fun i => (([some (20:ℝ), none, some 20].getD i none).getD 0) < 10)
      3 0 none = [(1, 1)] := by
    rw [runScan.eq_def, dif_pos (by norm_num : (0:ℕ) < 3),
      if_neg (by norm_num : ¬ (([some (20:ℝ), none, some 20].getD 0 none).getD 0) < 10)]
    rw [runScan.eq_def, dif_pos (by norm_num : (1:ℕ) < 3),
      if_pos (by norm_num : (([some (20:ℝ), none, some 20].getD 1 none).getD 0) < 10)]
    rw [runScan.eq_def, dif_pos (by norm_num : (2:ℕ) < 3),
      if_neg (by norm_num : ¬ (([some (20:ℝ), none, some 20].getD 2 none).getD 0) < 10)]
    rw [runScan.eq_def, dif_neg (by norm_num : ¬ (3:ℕ) < 3)]
  rw [show ([some (20:ℝ), none, some 20] : List (Option ℝ)).length = 3 from rfl, e1]
  simp [calcSegLength]

/-- C6 counterexample: in `pathC6` the width entry at index 1 is absent
(JS `null`), yet `findNarrowSections` classifies index 1 into a
narrow-section rejected region, because the JS comparison `null < 10`
coerces `null` to 0 — refuting "width-absent is never classified". -/
theorem C6_counterexample :
    pathC6.widths = some [some 20, none, some 20] ∧
    [some (20:ℝ), none, some 20].getD 1 none = none ∧
    findNarrowSections pathC6 10 = [⟨1, 1, 0, "narrow section"⟩] :=
  ⟨rfl, rfl, findNarrowSections_eval_C6⟩

/-- C6 amended: for a width-aware path, an in-range index lies in a
narrow-section region iff its width entry is an explicit width below the
threshold OR is width-absent (with a positive threshold): absent entries
compare as zero and are classified, not skipped. -/
theorem C6_narrow_section_membership (p : RiverPath) (ws : List (Option ℝ)) (minW : ℝ)
    (hw : p.widths = some ws) (i : ℕ) (hi : i < ws.length) :
    (∃ sg ∈ findNarrowSections p minW, sg.startIdx ≤ i ∧ i ≤ sg.endIdx) ↔
      ((∃ w, ws.getD i none = some w ∧ w < minW) ∨
        (ws.getD i none = none ∧ 0 < minW)) := by
  rw [findNarrowSections_mem_iff p ws minW hw i hi]
  cases h : ws.getD i none with
  | none => simp [h]
  | some w => simp [h]

/-- C6 witness: the amended characterization applied at `pathC6`,
index 1 (width-absent, threshold 10). -/
theorem C6_witness :
    (∃ sg ∈ findNarrowSections pathC6 10, sg.startIdx ≤ 1 ∧ 1 ≤ sg.endIdx) ↔
      ((∃ w, [some (20:ℝ), none, some 20].getD 1 none = some w ∧ w < 10) ∨
        ([some (20:ℝ), none, some 20].getD 1 none = none ∧ (0:ℝ) < 10)) :=
  C6_narrow_section_membership pathC6 [some 20, none, some 20] 10 rfl 1 (by norm_num)

/-! ## PlacementScorer -/

/-- `Math.atan2(y, x)` over ℝ (with the JS convention `atan2(0,0) = 0`). -/
noncomputable def atan2 (y x : ℝ) : ℝ :=
  if 0 < x then Real.arctan (y / x)
  else if x < 0 then
    (if 0 ≤ y then Real.arctan (y / x) + Real.pi else Real.arctan (y / x) - Real.pi)
  else if 0 < y then Real.pi / 2
  else if y < 0 then -(Real.pi / 2)
  else 0

/-- Component scores of `scoreSegment`. -/
structure Scores where
  curvature : ℝ
  width : ℝ
  position : ℝ
  straightness : ℝ

/-- A candidate's `segment` record (its `reason` is JS `null`). -/
structure CandSeg where
  startIdx : ℕ
  endIdx : ℕ
  length : ℝ
  reason : Option String

/-- A `PlacementCandidate`. -/
structure Candidate where
  segment : CandSeg
  score : ℝ
  scores : Scores
  centerPoint : Point

/-- The guarded `sum`/`count`/`avg` accumulator loop shared by
`_calculateCurvatureScore` and `_calculateWidthScore`: sum `vals i` over
`i ∈ [s,e]` where `sel i` holds, divided by the count (0 when the count
is 0). -/
noncomputable def segAvg (vals : ℕ → ℝ) (sel : ℕ → Prop) [DecidablePred sel]
    (s e : ℕ) : ℝ :=
  if 0 < ((Finset.Icc s e).filter sel).card then
    (∑ i in Finset.Icc s e, if sel i then vals i else 0) /
      ((Finset.Icc s e).filter sel).card
  else 0

/-- `_calculateCurvatureScore` (the `path` argument of the source is
unused by its body). -/
noncomputable def calculateCurvatureScore (p : RiverPath) (s e : ℕ)
    (m : GeometryMetrics) : ℝ :=
  max 0 (100 - segAvg (fun i => m.curvatures.getD i 0)
    (fun i => i < m.curvatures.length) s e * 3)

/-- `_calculateWidthScore` (`idealWidth = 20`; `null` width entries are
skipped by the `widths[i] !== null` guard). -/
noncomputable def calculateWidthScore (p : RiverPath) (s e : ℕ) : ℝ :=
  match p.widths with
  | none => 50
  | some ws =>
    if ws.length = 0 then 50
    else min 100 (segAvg (fun i => (ws.getD i none).getD 0)
        (fun i => i < ws.length ∧ ws.getD i none ≠ none) s e / 20 * 100)

/-- The guarded distance-accumulation loops of the scorer
(`if (i < points.length - 1)` inside `for (i = a; i < b; i++)`). -/
noncomputable def clippedDistSum (ps : List Point) (a b : ℕ) : ℝ :=
  ∑ i in Finset.Ico a b, if i < ps.length - 1 then ptDist (pt ps i) (pt ps (i + 1)) else 0

/-- `_calculatePositionScore` (`segmentCenter = distanceToSegmentStart +
segmentLength / 2`, `maxDistance = pathCenter = totalLength / 2`). -/
noncomputable def calculatePositionScore (p : RiverPath) (s e : ℕ) : ℝ :=
  if 0 < p.length / 2 then
    100 * (1 - |clippedDistSum p.points 0 s + clippedDistSum p.points s e / 2 -
      p.length / 2| / (p.length / 2))
  else 100

/-- The heading list of `_calculateStraightnessScore`. -/
noncomputable def headingAngles (ps : List Point) (s e : ℕ) : List ℝ :=
  ((List.range' s (e - s)).filter fun i => i < ps.length - 1).map
    fun i => atan2 ((pt ps (i + 1)).y - (pt ps i).y) ((pt ps (i + 1)).x - (pt ps i).x)

/-- The two JS wrap-around `while` loops, which normalize an angle
difference into `(-π, π]`.  (At exactly `-π` JS keeps `-π` while this
returns `π`; the two agree after squaring, which is the only use.) -/
noncomputable def wrapAngle (d : ℝ) : ℝ :=
  toIocMod Real.two_pi_pos (-Real.pi) d

/-- `avgAngle` of `_calculateStraightnessScore`. -/
noncomputable def avgHeading (angles : List ℝ) : ℝ :=
  angles.sum / angles.length

/-- `varianceDegrees` of `_calculateStraightnessScore`: the root of the
mean squared wrapped deviation, converted to degrees. -/
noncomputable def headingVarianceDeg (angles : List ℝ) : ℝ :=
  Real.sqrt ((angles.map fun a => wrapAngle (a - avgHeading angles) ^ 2).sum /
    angles.length) * (180 / Real.pi)

/-- `_calculateStraightnessScore`. -/
noncomputable def calculateStraightnessScore (p : RiverPath) (s e : ℕ) : ℝ :=
  if e - s < 2 then 100
  else if (headingAngles p.points s e).length = 0 then 100
  else max 0 (100 - headingVarianceDeg (headingAngles p.points s e) * 5)

/-- `PlacementScorer.scoreSegment`: weighted overall score and the four
component scores. -/
noncomputable def scoreSegment (p : RiverPath) (s e : ℕ) (m : GeometryMetrics) :
    ℝ × Scores :=
  (calculateCurvatureScore p s e m * 0.4 + calculateWidthScore p s e * 0.2 +
     calculatePositionScore p s e * 0.2 + calculateStraightnessScore p s e * 0.2,
   { curvature := calculateCurvatureScore p s e m
     width := calculateWidthScore p s e
     position := calculatePositionScore p s e
     straightness := calculateStraightnessScore p s e })

/-- The scorer's `rejectedIndices` set: sharp-curve ∪ narrow-section ∪
both edge sections (each segment contributes its inclusive index range). -/
def rejectedIndices (m : GeometryMetrics) : Finset ℕ :=
  (m.sharpCurves.foldr (fun sg acc => acc ∪ Finset.Icc sg.startIdx sg.endIdx) ∅) ∪
  (m.narrowSections.foldr (fun sg acc => acc ∪ Finset.Icc sg.startIdx sg.endIdx) ∅) ∪
  Finset.Icc m.edgeSections.startSec.startIdx m.edgeSections.startSec.endIdx ∪
  Finset.Icc m.edgeSections.endSec.startIdx m.edgeSections.endSec.endIdx

/-- The walk of `_calculateCenterPoint` from `i` toward `e` looking for
the half-length target (`none` when the loop exhausts). -/
noncomputable def centerWalk (ps : List Point) (e : ℕ) (target : ℝ) (i : ℕ) (acc : ℝ) :
    Option Point :=
  if _h : i < e then
    if i < ps.length - 1 then
      if target ≤ acc + ptDist (pt ps i) (pt ps (i + 1)) then
        some ⟨(pt ps i).x + ((pt ps (i + 1)).x - (pt ps i).x) *
                (if 0 < ptDist (pt ps i) (pt ps (i + 1)) then
                  (target - acc) / ptDist (pt ps i) (pt ps (i + 1)) else 0),
              (pt ps i).y + ((pt ps (i + 1)).y - (pt ps i).y) *
                (if 0 < ptDist (pt ps i) (pt ps (i + 1)) then
                  (target - acc) / ptDist (pt ps i) (pt ps (i + 1)) else 0)⟩
      else centerWalk ps e target (i + 1) (acc + ptDist (pt ps i) (pt ps (i + 1)))
    else centerWalk ps e target (i + 1) acc
  else none
termination_by e - i

/-- `PlacementScorer._calculateCenterPoint` (the fallback
`points[endIdx] || points[points.length - 1]`). -/
noncomputable def calculateCenterPoint (p : RiverPath) (s e : ℕ) : Point :=
  match centerWalk p.points e (clippedDistSum p.points s e / 2) s 0 with
  | some c => c
  | none => if e < p.points.length then pt p.points e else pt p.points (p.points.length - 1)

/-- The candidate record pushed by `findCandidates`. -/
noncomputable def mkCandidate (p : RiverPath) (m : GeometryMetrics) (s e : ℕ)
    (len : ℝ) : Candidate :=
  { segment := { startIdx := s, endIdx := e, length := len, reason := none }
    score := (scoreSegment p s e m).1
    scores := (scoreSegment p s e m).2
    centerPoint := calculateCenterPoint p s e }

/-- The inner extension loop of `findCandidates` for a fixed start index
(`segLen + distance` is the JS `segmentLength += distance`, written out
at each use). -/
noncomputable def findCandInner (p : RiverPath) (tl : ℝ) (m : GeometryMetrics)
    (rej : Finset ℕ) (startIdx endIdx : ℕ) (segLen : ℝ) : List Candidate :=
  if _h : endIdx < p.points.length then
    if endIdx ∈ rej then []
    else if ∃ i ∈ Finset.Ioo startIdx endIdx, i ∈ rej then []
    else
      (if tl ≤ segLen + ptDist (pt p.points (endIdx - 1)) (pt p.points endIdx) then
        [mkCandidate p m startIdx endIdx
          (segLen + ptDist (pt p.points (endIdx - 1)) (pt p.points endIdx))]
      else []) ++
        findCandInner p tl m rej startIdx (endIdx + 1)
          (segLen + ptDist (pt p.points (endIdx - 1)) (pt p.points endIdx))
  else []
termination_by p.points.length - endIdx

/-- `PlacementScorer.findCandidates`.  (The source checks the interior
indices anew at every extension step and `break`s; since the loop also
breaks the moment the end index is rejected, aborting is equivalent to
returning the empty remainder, which is how the `break` is modelled.) -/
noncomputable def findCandidates (p : RiverPath) (tl : ℝ) (m : GeometryMetrics) :
    List Candidate :=
  (List.range (p.points.length - 1)).flatMap fun s =>
    if s ∈ rejectedIndices m then []
    else findCandInner p tl m (rejectedIndices m) s (s + 1) 0

/-! ## Candidate membership characterization -/

/-- The window arclength of `[s, e]`: the distances accumulated by the
extension loop. -/
noncomputable def windowLen (ps : List Point) (s e : ℕ) : ℝ :=
  ∑ i in Finset.Ico s e, ptDist (pt ps i) (pt ps (i + 1))

theorem windowLen_succ (ps : List Point) (s e : ℕ) (h : s ≤ e) :
    windowLen ps s (e + 1) = windowLen ps s e + ptDist (pt ps e) (pt ps (e + 1)) := by
  unfold windowLen
  rw [Finset.sum_Ico_succ_top h]

theorem findCandInner_mem (p : RiverPath) (tl : ℝ) (m : GeometryMetrics)
    (rej : Finset ℕ) (s : ℕ) (hs : s ∉ rej) :
    ∀ fuel e0 L0, p.points.length - e0 ≤ fuel → s < e0 →
      (∀ k, s < k → k < e0 → k ∉ rej) →
      L0 = windowLen p.points s (e0 - 1) →
      ∀ c ∈ findCandInner p tl m rej s e0 L0,
        ∃ e, e0 ≤ e ∧ e < p.points.length ∧
          c = mkCandidate p m s e (windowLen p.points s e) ∧
          tl ≤ windowLen p.points s e ∧
          ∀ k, s ≤ k → k ≤ e → k ∉ rej := by
  intro fuel
  induction fuel with
  | zero =>
    intro e0 L0 hfuel hse hint hL c hc
    rw [findCandInner.eq_def, dif_neg (by omega : ¬ e0 < p.points.length)] at hc
    simp at hc
  | succ fuel ih =>
    intro e0 L0 hfuel hse hint hL c hc
    by_cases hlt : e0 < p.points.length
    · rw [findCandInner.eq_def, dif_pos hlt] at hc
      by_cases hre : e0 ∈ rej
      · rw [if_pos hre] at hc; simp at hc
      · rw [if_neg hre] at hc
        rw [if_neg (by
          rintro ⟨i, hi, hirej⟩
          simp only [Finset.mem_Ioo] at hi
          exact hint i hi.1 hi.2 hirej)] at hc
        have hstep : L0 + ptDist (pt p.points (e0 - 1)) (pt p.points e0) =
            windowLen p.points s e0 := by
          rw [hL]
          have hws := windowLen_succ p.points s (e0 - 1) (by omega)
          rw [show (e0 - 1) + 1 = e0 by omega] at hws
          exact hws.symm
        rcases List.mem_append.mp hc with hc1 | hc2
        · by_cases htl : tl ≤ L0 + ptDist (pt p.points (e0 - 1)) (pt p.points e0)
          · rw [if_pos htl] at hc1
            simp only [List.mem_singleton] at hc1
            refine ⟨e0, le_rfl, hlt, ?_, ?_, ?_⟩
            · rw [hc1, hstep]
            · rw [← hstep]; exact htl
            · intro k hk1 hk2
              rcases Nat.lt_or_ge k e0 with hk | hk
              · rcases Nat.eq_or_lt_of_le hk1 with rfl | hk1
                · exact hs
                · exact hint k hk1 hk
              · have : k = e0 := by omega
                rw [this]; exact hre
          · rw [if_neg htl] at hc1
            simp at hc1
        · obtain ⟨e, he0, helt, hceq, htl2, hfree⟩ :=
            ih (e0 + 1) (L0 + ptDist (pt p.points (e0 - 1)) (pt p.points e0))
              (by omega) (by omega)
              (fun k hk1 hk2 => by
                rcases Nat.lt_or_ge k e0 with hk | hk
                · exact hint k hk1 hk
                · have : k = e0 := by omega
                  rw [this]; exact hre)
              (by rw [show e0 + 1 - 1 = e0 from rfl]; exact hstep) c hc2
          exact ⟨e, by omega, helt, hceq, htl2, hfree⟩
    · rw [findCandInner.eq_def, dif_neg hlt] at hc
      simp at hc

/-- Full membership characterization for `findCandidates`. -/
theorem findCandidates_mem (p : RiverPath) (tl : ℝ) (m : GeometryMetrics)
    (c : Candidate) (hc : c ∈ findCandidates p tl m) :
    ∃ s e, s < e ∧ e < p.points.length ∧
      c = mkCandidate p m s e (windowLen p.points s e) ∧
      tl ≤ windowLen p.points s e ∧
      ∀ k, s ≤ k → k ≤ e → k ∉ rejectedIndices m := by
  unfold findCandidates at hc
  rw [List.mem_flatMap] at hc
  obtain ⟨s, _hsrange, hc⟩ := hc
  by_cases hs : s ∈ rejectedIndices m
  · rw [if_pos hs] at hc; simp at hc
  · rw [if_neg hs] at hc
    obtain ⟨e, he0, helen, hceq, htl, hfree⟩ :=
      findCandInner_mem p tl m (rejectedIndices m) s hs
        (p.points.length - (s + 1)) (s + 1) 0 le_rfl (by omega) (by omega)
        (by unfold windowLen; rw [show s + 1 - 1 = s by omega]; simp) c hc
    exact ⟨s, e, by omega, helen, hceq, htl, hfree⟩

/-! ## C1: emitted candidates avoid rejected indices and fit the text -/

/-- C1: every candidate emitted by `findCandidates` has a window that
contains no rejected index (sharp-curve, narrow-section or edge), and the
accumulated window arclength (stored in the candidate and equal to the
sum of its segment distances) is at least the requested text length. -/
theorem C1_candidate_window_free_and_long_enough
    (p : RiverPath) (tl : ℝ) (m : GeometryMetrics) (c : Candidate)
    (hc : c ∈ findCandidates p tl m) :
    (∀ i, c.segment.startIdx ≤ i → i ≤ c.segment.endIdx →
      i ∉ rejectedIndices m) ∧
    tl ≤ c.segment.length ∧
    c.segment.length = windowLen p.points c.segment.startIdx c.segment.endIdx := by
  obtain ⟨s, e, _hse, _helen, hceq, htl, hfree⟩ := findCandidates_mem p tl m c hc
  subst hceq
  refine ⟨?_, htl, rfl⟩
  intro i h1 h2
  exact hfree i h1 h2

/-- 3-point horizontal path used by the scorer witnesses. -/
noncomputable def pathW : RiverPath :=
  { points := [⟨0, 0⟩, ⟨10, 0⟩, ⟨20, 0⟩]
    widths := none
    length := 20
    bounds := ⟨0, 20, 0, 0⟩ }

/-- Metrics whose rejection set is empty (edge segments carry the empty
index interval `[1,0]`). -/
noncomputable def mW : GeometryMetrics :=
  { curvatures := [0, 0, 0]
    sharpCurves := []
    narrowSections := []
    edgeSections := ⟨⟨1, 0, 0, "edge section"⟩, ⟨1, 0, 0, "edge section"⟩⟩
    avgCurvature := 0
    maxCurvature := 0 }

theorem rejectedIndices_mW : rejectedIndices mW = ∅ := by
  unfold rejectedIndices mW
  simp

/-- The first candidate emitted on `pathW` with text length 0. -/
noncomputable def cW : Candidate :=
  mkCandidate pathW mW 0 1 (0 + ptDist (pt pathW.points 0) (pt pathW.points 1))

theorem cW_mem : cW ∈ findCandidates pathW 0 mW := by
  unfold findCandidates
  rw [List.mem_flatMap]
  refine ⟨0, ?_, ?_⟩
  · show 0 ∈ List.range (pathW.points.length - 1)
    simp [pathW]
  · rw [if_neg (by rw [rejectedIndices_mW]; simp)]
    rw [findCandInner.eq_def]
    rw [dif_pos (by norm_num [pathW] : 0 + 1 < pathW.points.length)]
    rw [if_neg (by rw [rejectedIndices_mW]; simp)]
    rw [if_neg (by
      rintro ⟨i, hi, _⟩
      simp at hi
      omega)]
    rw [if_pos (by
      have := Real.sqrt_nonneg (((pt pathW.points (0 + 1)).x - (pt pathW.points (0 + 1 - 1)).x) ^ 2 +
        ((pt pathW.points (0 + 1)).y - (pt pathW.points (0 + 1 - 1)).y) ^ 2)
      unfold ptDist
      linarith)]
    exact List.mem_append_left _ (List.mem_singleton_self _)

/-- C1 witness: the theorem applied at `pathW`, text length 0, metrics
`mW`, and the concrete emitted candidate `cW`. -/
theorem C1_witness :
    (∀ i, cW.segment.startIdx ≤ i → i ≤ cW.segment.endIdx →
      i ∉ rejectedIndices mW) ∧
    (0 : ℝ) ≤ cW.segment.length ∧
    cW.segment.length = windowLen pathW.points cW.segment.startIdx cW.segment.endIdx :=
  C1_candidate_window_free_and_long_enough pathW 0 mW cW cW_mem

/-! ## C2: selectOptimal -/

/-- The tie-breaking loop of `selectOptimal` (`bestPositionScore` always
equals `best.scores.position`, so the tracking variable is dropped). -/
noncomputable def posFold (t : Candidate) (ts : List Candidate) : Candidate :=
  ts.foldl (fun best c => if best.scores.position < c.scores.position then c else best) t

/-- `PlacementScorer.selectOptimal`.  On a list of two or more candidates
whose scores are all `< -1`, the JS `topCandidates[0]` access throws a
TypeError (the filter against the stuck `maxScore = -1` is empty); the
thrown error is modelled by `none`. -/
noncomputable def selectOptimal (cands : List Candidate) : Option Candidate :=
  match cands with
  | [] => none
  | [c] => some c
  | _ :: _ :: _ =>
    let maxScore := cands.foldl (fun mx c => if mx < c.score then c.score else mx) (-1)
    match cands.filter (fun c => decide (c.score = maxScore)) with
    | [] => none
    | t :: ts => if ts.length = 0 then some t else some (posFold t ts)

theorem foldl_maxScore_le (l : List Candidate) :
    ∀ a : ℝ, a ≤ l.foldl (fun mx c => if mx < c.score then c.score else mx) a := by
  induction l with
  | nil => intro a; simp
  | cons c rest ih =>
    intro a
    simp only [List.foldl_cons]
    refine le_trans ?_ (ih _)
    by_cases h : a < c.score
    · rw [if_pos h]; exact le_of_lt h
    · rw [if_neg h]

theorem le_foldl_maxScore (l : List Candidate) :
    ∀ a : ℝ, ∀ c ∈ l, c.score ≤ l.foldl (fun mx c => if mx < c.score then c.score else mx) a := by
  induction l with
  | nil => simp
  | cons d rest ih =>
    intro a c hc
    simp only [List.foldl_cons]
    rcases List.mem_cons.mp hc with rfl | hc
    · refine le_trans ?_ (foldl_maxScore_le rest _)
      by_cases h : a < c.score
      · rw [if_pos h]
      · rw [if_neg h]; exact not_lt.mp h
    · exact ih _ c hc

theorem foldl_maxScore_eq (l : List Candidate) :
    ∀ a : ℝ, l.foldl (fun mx c => if mx < c.score then c.score else mx) a = a ∨
      ∃ c ∈ l, l.foldl (fun mx c => if mx < c.score then c.score else mx) a = c.score := by
  induction l with
  | nil => intro a; left; rfl
  | cons d rest ih =>
    intro a
    simp only [List.foldl_cons]
    rcases ih (if a < d.score then d.score else a) with h | ⟨c, hc, h⟩
    · by_cases hd : a < d.score
      · right
        exact ⟨d, List.mem_cons_self _ _, by rw [h, if_pos hd]⟩
      · left
        rw [h, if_neg hd]
    · right
      exact ⟨c, List.mem_cons_of_mem _ hc, h⟩

theorem posFold_spec : ∀ (ts : List Candidate) (t : Candidate),
    posFold t ts ∈ t :: ts ∧
    (∀ d ∈ t :: ts, d.scores.position ≤ (posFold t ts).scores.position) ∧
    (t :: ts).find?
        (fun d => decide (d.scores.position = (posFold t ts).scores.position))
      = some (posFold t ts) := by
  intro ts
  induction ts with
  | nil =>
    intro t
    refine ⟨by simp [posFold], by simp [posFold], ?_⟩
    simp [posFold, List.find?]
  | cons c ts2 ih =>
    intro t
    have hfold : posFold t (c :: ts2) =
        posFold (if t.scores.position < c.scores.position then c else t) ts2 := by
      simp [posFold]
    by_cases h : t.scores.position < c.scores.position
    · rw [if_pos h] at hfold
      obtain ⟨ihmem, ihmax, ihfind⟩ := ih c
      rw [hfold]
      refine ⟨List.mem_cons_of_mem _ ihmem, ?_, ?_⟩
      · intro d hd
        rcases List.mem_cons.mp hd with rfl | hd
        · exact le_trans (le_of_lt h) (ihmax c (List.mem_cons_self _ _))
        · exact ihmax d hd
      · rw [List.find?_cons_of_neg, ihfind]
        simp only [decide_eq_true_eq]
        have := ihmax c (List.mem_cons_self _ _)
        intro heq
        rw [heq] at h
        exact absurd (lt_of_lt_of_le h this) (lt_irrefl _)
    · rw [if_neg h] at hfold
      obtain ⟨ihmem, ihmax, ihfind⟩ := ih t
      rw [hfold]
      have hbmax := ihmax t (List.mem_cons_self _ _)
      refine ⟨?_, ?_, ?_⟩
      · rcases List.mem_cons.mp ihmem with hb | hb
        · rw [hb]; exact List.mem_cons_self _ _
        · exact List.mem_cons_of_mem _ (List.mem_cons_of_mem _ hb)
      · intro d hd
        rcases List.mem_cons.mp hd with rfl | hd
        · exact hbmax
        · rcases List.mem_cons.mp hd with rfl | hd
          · exact le_trans (not_lt.mp h) hbmax
          · exact ihmax d (List.mem_cons_of_mem _ hd)
      · by_cases hp : t.scores.position = (posFold t ts2).scores.position
        · have h1 : (t :: ts2).find?
              (fun d => decide (d.scores.position = (posFold t ts2).scores.position))
              = some t := List.find?_cons_of_pos _ (by simp [hp])
          rw [h1] at ihfind
          injection ihfind with ihfind
          rw [List.find?_cons_of_pos _ (by simp [hp])]
          exact congrArg some ihfind
        · have h1 : (t :: ts2).find?
              (fun d => decide (d.scores.position = (posFold t ts2).scores.position))
              = ts2.find?
                (fun d => decide (d.scores.position = (posFold t ts2).scores.position)) :=
            List.find?_cons_of_neg _ (by simp [hp])
          rw [h1] at ihfind
          rw [List.find?_cons_of_neg _ (by simp [hp]),
            List.find?_cons_of_neg _ ?_, ihfind]
          simp only [decide_eq_true_eq]
          intro heq
          have hct : c.scores.position ≤ t.scores.position := not_lt.mp h
          rw [heq] at hct
          exact hp (le_antisymm hbmax hct)

theorem find?_filter_of_imp (l : List Candidate) (p q : Candidate → Bool)
    (himp : ∀ x, p x = true → q x = true) :
    (l.filter q).find? p = l.find? p := by
  induction l with
  | nil => rfl
  | cons x xs ih =>
    by_cases hq : q x = true
    · rw [List.filter_cons_of_pos hq]
      by_cases hp : p x = true
      · rw [List.find?_cons_of_pos _ hp, List.find?_cons_of_pos _ hp]
      · rw [List.find?_cons_of_neg _ (by simpa using hp),
          List.find?_cons_of_neg _ (by simpa using hp), ih]
    · have hp : ¬ p x = true := fun hp => hq (himp x hp)
      rw [List.filter_cons_of_neg (by simpa using hq),
        List.find?_cons_of_neg _ (by simpa using hp), ih]

theorem find?_congr_mem (l : List Candidate) (p q : Candidate → Bool)
    (hpq : ∀ x ∈ l, p x = q x) : l.find? p = l.find? q := by
  induction l with
  | nil => rfl
  | cons x xs ih =>
    have hx := hpq x (List.mem_cons_self _ _)
    by_cases hp : p x = true
    · rw [List.find?_cons_of_pos _ hp, List.find?_cons_of_pos _ (hx ▸ hp)]
    · rw [List.find?_cons_of_neg _ (by simpa using hp),
        List.find?_cons_of_neg _ (by rw [← hx]; simpa using hp)]
      exact ih fun x hx2 => hpq x (List.mem_cons_of_mem _ hx2)

/-- C2 amended: for every non-empty candidate list that is a singleton or
contains a candidate with score ≥ −1 (true of all pipeline lists, whose
scores are nonnegative), `selectOptimal` returns a candidate of maximum
overall score; among candidates tied at that maximum it has the maximum
position score; and it is the first-encountered candidate tied on both
(the `find?` clause).  Multi-candidate lists with all scores < −1 instead
crash in the source — see the counterexample. -/
theorem C2_selectOptimal_max_position_first (cands : List Candidate)
    (hne : cands ≠ [])
    (hok : cands.length = 1 ∨ ∃ c ∈ cands, -1 ≤ c.score) :
    ∃ best, selectOptimal cands = some best ∧ best ∈ cands ∧
      (∀ d ∈ cands, d.score ≤ best.score) ∧
      (∀ d ∈ cands, d.score = best.score →
        d.scores.position ≤ best.scores.position) ∧
      cands.find? (fun d => decide (d.score = best.score ∧
        d.scores.position = best.scores.position)) = some best := by
  rcases cands with _ | ⟨c1, _ | ⟨c2, rest⟩⟩
  · exact absurd rfl hne
  · refine ⟨c1, rfl, List.mem_cons_self _ _, ?_, ?_, ?_⟩
    · intro d hd
      rcases List.mem_cons.mp hd with rfl | hd
      · exact le_refl _
      · simp at hd
    · intro d hd _
      rcases List.mem_cons.mp hd with rfl | hd
      · exact le_refl _
      · simp at hd
    · exact List.find?_cons_of_pos _ (by simp)
  · set l : List Candidate := c1 :: c2 :: rest with hl
    have hex : ∃ c ∈ l, -1 ≤ c.score := by
      rcases hok with h1 | h2
      · exact absurd h1 (by simp [hl])
      · exact h2
    set M := l.foldl (fun mx c => if mx < c.score then c.score else mx) (-1) with hM
    have hMach : ∃ c ∈ l, c.score = M := by
      rcases foldl_maxScore_eq l (-1) with h | ⟨c, hc, h⟩
      · obtain ⟨c, hc, hcs⟩ := hex
        have hle := le_foldl_maxScore l (-1) c hc
        rw [← hM] at h hle
        exact ⟨c, hc, le_antisymm hle (h ▸ hcs)⟩
      · exact ⟨c, hc, (hM ▸ h).symm⟩
    obtain ⟨c0, hc0l, hc0s⟩ := hMach
    cases hfil : l.filter (fun c => decide (c.score = M)) with
    | nil =>
      exfalso
      have hmem : c0 ∈ l.filter (fun c => decide (c.score = M)) :=
        List.mem_filter.mpr ⟨hc0l, by simp [hc0s]⟩
      rw [hfil] at hmem
      simp at hmem
    | cons t ts =>
      have hsub : ∀ d ∈ t :: ts, d ∈ l ∧ d.score = M := by
        intro d hd
        rw [← hfil] at hd
        have := List.mem_filter.mp hd
        exact ⟨this.1, by simpa using this.2⟩
      have hsup : ∀ d ∈ l, d.score = M → d ∈ t :: ts := by
        intro d hd hds
        rw [← hfil]
        exact List.mem_filter.mpr ⟨hd, by simp [hds]⟩
      have hsel : selectOptimal l = some (posFold t ts) := by
        rw [hl]
        simp only [selectOptimal]
        rw [← hl, ← hM, hfil]
        show (if ts.length = 0 then some t else some (posFold t ts)) = _
        cases ts with
        | nil => simp [posFold]
        | cons a as => rw [if_neg (by simp)]
      obtain ⟨hbmem, hbmax, hbfind⟩ := posFold_spec ts t
      have hbl : posFold t ts ∈ l := (hsub _ hbmem).1
      have hbM : (posFold t ts).score = M := (hsub _ hbmem).2
      refine ⟨posFold t ts, hsel, hbl, ?_, ?_, ?_⟩
      · intro d hd
        rw [hbM]
        exact hM ▸ le_foldl_maxScore l (-1) d hd
      · intro d hd hds
        exact hbmax d (hsup d hd (by rw [hds, hbM]))
      · have h1 : l.find? (fun d => decide (d.score = (posFold t ts).score ∧
            d.scores.position = (posFold t ts).scores.position)) =
            (l.filter (fun c => decide (c.score = M))).find?
              (fun d => decide (d.score = (posFold t ts).score ∧
                d.scores.position = (posFold t ts).scores.position)) := by
          refine (find?_filter_of_imp l _ _ ?_).symm
          intro x hx
          simp only [decide_eq_true_eq] at hx
          simp [hx.1, hbM]
        rw [h1, hfil]
        have h2 : (t :: ts).find? (fun d => decide (d.score = (posFold t ts).score ∧
            d.scores.position = (posFold t ts).scores.position)) =
            (t :: ts).find?
              (fun d => decide (d.scores.position = (posFold t ts).scores.position)) := by
          refine find?_congr_mem _ _ _ ?_
          intro x hx
          have hxM := (hsub x hx).2
          by_cases hxp : x.scores.position = (posFold t ts).scores.position
          · simp [hxp, hxM, hbM]
          · simp [hxp]
        rw [h2, hbfind]

/-- First candidate (overall score −2) for the C2 counterexample. -/
noncomputable def candA : Candidate :=
  { segment := ⟨0, 1, 1, none⟩, score := -2,
    scores := ⟨0, 0, 0, 0⟩, centerPoint := ⟨0, 0⟩ }

/-- Second candidate (overall score −2) for the C2 counterexample. -/
noncomputable def candB : Candidate :=
  { segment := ⟨1, 2, 1, none⟩, score := -2,
    scores := ⟨0, 0, 0, 0⟩, centerPoint := ⟨0, 0⟩ }

/-- C2 counterexample: on the non-empty list `[candA, candB]` (both
scores −2 < −1, so the JS running maximum stays at its −1 sentinel and
the tie filter is empty) `selectOptimal` returns no candidate — the
source throws on `topCandidates[0]` — rather than a candidate of maximum
overall score. -/
theorem C2_counterexample :
    ([candA, candB] : List Candidate) ≠ [] ∧
    selectOptimal [candA, candB] = none := by
  refine ⟨by simp, ?_⟩
  have hfold : ([candA, candB] : List Candidate).foldl
      (fun mx c => if mx < c.score then c.score else mx) (-1) = -1 := by
    simp only [List.foldl_cons, List.foldl_nil]
    norm_num [candA, candB]
  have hfilter : ([candA, candB] : List Candidate).filter
      (fun c => decide (c.score = -1)) = [] := by
    rw [List.filter_cons_of_neg (by norm_num [candA]),
      List.filter_cons_of_neg (by norm_num [candB]), List.filter_nil]
  simp only [selectOptimal]
  rw [hfold, hfilter]

/-- Candidate with score 7 for the C2 witness. -/
noncomputable def candC : Candidate :=
  { segment := ⟨0, 1, 1, none⟩, score := 7,
    scores := ⟨0, 0, 0, 0⟩, centerPoint := ⟨0, 0⟩ }

/-- C2 witness: the amended selection theorem applied to the concrete
singleton list `[candC]`. -/
theorem C2_witness :
    ∃ best, selectOptimal [candC] = some best ∧ best ∈ [candC] ∧
      (∀ d ∈ [candC], d.score ≤ best.score) ∧
      (∀ d ∈ [candC], d.score = best.score →
        d.scores.position ≤ best.scores.position) ∧
      ([candC] : List Candidate).find? (fun d => decide (d.score = best.score ∧
        d.scores.position = best.scores.position)) = some best :=
  C2_selectOptimal_max_position_first [candC] (by simp) (Or.inl rfl)

/-! ## C4: findOptimalPlacement and its fallback -/

theorem ptDist_nonneg (p q : Point) : 0 ≤ ptDist p q := by
  unfold ptDist
  exact Real.sqrt_nonneg _

theorem windowLen_nonneg (ps : List Point) (a b : ℕ) : 0 ≤ windowLen ps a b :=
  Finset.sum_nonneg fun i _ => ptDist_nonneg _ _

theorem windowLen_mono (ps : List Point) {a b s e : ℕ} (h1 : s ≤ a) (h2 : b ≤ e) :
    windowLen ps a b ≤ windowLen ps s e := by
  unfold windowLen
  exact Finset.sum_le_sum_of_subset_of_nonneg (Finset.Ico_subset_Ico h1 h2)
    fun i _ _ => ptDist_nonneg _ _

/-- The inner while-walk of `_findAllValidSegments`: extend `i` forward
while in range and not rejected, tracking `(endIdx, segmentLength)`. -/
noncomputable def extendRun (ps : List Point) (rej : Finset ℕ) (i endIdx : ℕ)
    (segLen : ℝ) : ℕ × ℝ :=
  if _h : i < ps.length then
    if i ∈ rej then (endIdx, segLen)
    else extendRun ps rej (i + 1) i (segLen + ptDist (pt ps (i - 1)) (pt ps i))
  else (endIdx, segLen)
termination_by ps.length - i

/-- `PlacementScorer._findAllValidSegments` (its pushed record is built by
the same code as a candidate, so `mkCandidate` is reused; the loop's
`startIdx = endIdx` mutation makes the next iteration start at
`endIdx + 1`; the repeated `extendRun` call is the stored
`(endIdx, segmentLength)` pair). -/
noncomputable def findAllValidSegmentsAux (p : RiverPath) (m : GeometryMetrics)
    (rej : Finset ℕ) (startIdx : ℕ) : List Candidate :=
  if _h : startIdx < p.points.length - 1 then
    if startIdx ∈ rej then findAllValidSegmentsAux p m rej (startIdx + 1)
    else if h2 : 0 < (extendRun p.points rej (startIdx + 1) startIdx 0).2 ∧
        startIdx < (extendRun p.points rej (startIdx + 1) startIdx 0).1 then
      mkCandidate p m startIdx (extendRun p.points rej (startIdx + 1) startIdx 0).1
          (extendRun p.points rej (startIdx + 1) startIdx 0).2 ::
        findAllValidSegmentsAux p m rej
          ((extendRun p.points rej (startIdx + 1) startIdx 0).1 + 1)
    else findAllValidSegmentsAux p m rej (startIdx + 1)
  else []
termination_by p.points.length - startIdx
decreasing_by
  · omega
  · have := h2.2
    omega
  · omega

/-- `measureTextLength`.  Modelled from the source's no-DOM fallback
branch: `text.length * fontSize * 0.6` (the canvas-backed branch is an
external text-measurement capability). -/
noncomputable def measureTextLength (text : String) (fontSize : ℝ) : ℝ :=
  (text.length : ℝ) * fontSize * 0.6

/-- Result record of `findOptimalPlacement`. -/
structure PlacementResult where
  placement : Option Candidate
  warning : Option String
  allCandidates : List Candidate
  textLength : ℝ

/-- The longest-segment selection loop of the fallback (strict `<` keeps
the first-encountered longest; the source folds from `allSegments[0]`
over the whole list, which equals folding over the tail). -/
noncomputable def longestFold (t : Candidate) (ts : List Candidate) : Candidate :=
  ts.foldl (fun best sg => if best.segment.length < sg.segment.length then sg else best) t

/-- `PlacementScorer.findOptimalPlacement` (the interpolated lengths in
the source's warning template literal are dropped — only the presence and
kind of warning matter). -/
noncomputable def findOptimalPlacement (p : RiverPath) (text : String) (fontSize : ℝ)
    (m : GeometryMetrics) : PlacementResult :=
  match findCandidates p (measureTextLength text fontSize) m with
  | c :: cs =>
    { placement := selectOptimal (c :: cs), warning := none,
      allCandidates := c :: cs, textLength := measureTextLength text fontSize }
  | [] =>
    match findAllValidSegmentsAux p m (rejectedIndices m) 0 with
    | [] =>
      { placement := none,
        warning := some "No suitable placement found: entire river path has problematic geometry (sharp curves, narrow sections, or too short)",
        allCandidates := [], textLength := measureTextLength text fontSize }
    | s :: ss =>
      { placement := some (longestFold s ss),
        warning := some "Text length exceeds longest suitable segment. Text may be truncated or overlap.",
        allCandidates := s :: ss, textLength := measureTextLength text fontSize }

theorem extendRun_spec (ps : List Point) (rej : Finset ℕ) (s : ℕ) :
    ∀ fuel i, ps.length - i ≤ fuel → s < i → i - 1 < ps.length →
      (∀ k, s < k → k < i → k ∉ rej) →
      ∀ e L, extendRun ps rej i (i - 1) (windowLen ps s (i - 1)) = (e, L) →
        i - 1 ≤ e ∧ e < ps.length ∧ L = windowLen ps s e ∧
        (∀ k, s < k → k ≤ e → k ∉ rej) ∧
        (ps.length ≤ e + 1 ∨ e + 1 ∈ rej) := by
  intro fuel
  induction fuel with
  | zero =>
    intro i hf hsi hi1 hfree e L heq
    rw [extendRun.eq_def, dif_neg (by omega : ¬ i < ps.length)] at heq
    injection heq with h1 h2
    subst h1
    subst h2
    refine ⟨le_rfl, hi1, rfl, fun k hk1 hk2 => hfree k hk1 (by omega), Or.inl (by omega)⟩
  | succ fuel ih =>
    intro i hf hsi hi1 hfree e L heq
    by_cases hlt : i < ps.length
    · rw [extendRun.eq_def, dif_pos hlt] at heq
      by_cases hre : i ∈ rej
      · rw [if_pos hre] at heq
        injection heq with h1 h2
        subst h1
        subst h2
        refine ⟨le_rfl, hi1, rfl, fun k hk1 hk2 => hfree k hk1 (by omega),
          Or.inr (by rw [show i - 1 + 1 = i by omega]; exact hre)⟩
      · rw [if_neg hre] at heq
        have hseg : windowLen ps s (i - 1) + ptDist (pt ps (i - 1)) (pt ps i) =
            windowLen ps s ((i + 1) - 1) := by
          have hws := windowLen_succ ps s (i - 1) (by omega)
          rw [show (i - 1) + 1 = i by omega] at hws
          rw [show (i + 1) - 1 = i from rfl]
          exact hws.symm
        rw [hseg, show i = (i + 1) - 1 from rfl] at heq
        obtain ⟨h1, h2, h3, h4, h5⟩ := ih (i + 1) (by omega) (by omega) (by omega)
          (fun k hk1 hk2 => by
            rcases Nat.lt_or_ge k i with hk | hk
            · exact hfree k hk1 hk
            · have : k = i := by omega
              rw [this]; exact hre) e L heq
        exact ⟨by omega, h2, h3, h4, h5⟩
    · rw [extendRun.eq_def, dif_neg hlt] at heq
      injection heq with h1 h2
      subst h1
      subst h2
      refine ⟨le_rfl, hi1, rfl, fun k hk1 hk2 => hfree k hk1 (by omega), Or.inl (by omega)⟩

theorem findAllValidSegmentsAux_sound (p : RiverPath) (m : GeometryMetrics)
    (rej : Finset ℕ) :
    ∀ fuel s0, p.points.length - s0 ≤ fuel →
      ∀ c ∈ findAllValidSegmentsAux p m rej s0,
        ∃ s e, s < e ∧ e < p.points.length ∧
          c = mkCandidate p m s e (windowLen p.points s e) ∧
          0 < windowLen p.points s e ∧
          (∀ k, s ≤ k → k ≤ e → k ∉ rej) := by
  intro fuel
  induction fuel with
  | zero =>
    intro s0 hf c hc
    rw [findAllValidSegmentsAux.eq_def, dif_neg (by omega : ¬ s0 < p.points.length - 1)] at hc
    simp at hc
  | succ fuel ih =>
    intro s0 hf c hc
    by_cases hlt : s0 < p.points.length - 1
    · rw [findAllValidSegmentsAux.eq_def, dif_pos hlt] at hc
      by_cases hre : s0 ∈ rej
      · rw [if_pos hre] at hc
        exact ih (s0 + 1) (by omega) c hc
      · rw [if_neg hre] at hc
        rcases heq : extendRun p.points rej (s0 + 1) s0 0 with ⟨e, L⟩
        have heq2 : extendRun p.points rej (s0 + 1) ((s0 + 1) - 1)
            (windowLen p.points s0 ((s0 + 1) - 1)) = (e, L) := by
          rw [show (s0 + 1) - 1 = s0 from rfl,
            show windowLen p.points s0 s0 = 0 by simp [windowLen]]
          exact heq
        obtain ⟨hge, helen, hL, hfree, _hmax⟩ := extendRun_spec p.points rej s0
          (p.points.length - (s0 + 1)) (s0 + 1) le_rfl (by omega) (by omega)
          (by omega) e L heq2
        rw [heq] at hc
        by_cases h2 : 0 < (e, L).2 ∧ s0 < (e, L).1
        · rw [dif_pos h2] at hc
          rcases List.mem_cons.mp hc with hc1 | hc2
          · refine ⟨s0, e, h2.2, helen, ?_, ?_, ?_⟩
            · rw [hc1, hL]
            · rw [← hL]; exact h2.1
            · intro k hk1 hk2
              rcases Nat.eq_or_lt_of_le hk1 with rfl | hk1
              · exact hre
              · exact hfree k hk1 hk2
          · exact ih (e + 1) (by omega) c hc2
        · rw [dif_neg h2] at hc
          exact ih (s0 + 1) (by omega) c hc
    · rw [findAllValidSegmentsAux.eq_def, dif_neg hlt] at hc
      simp at hc

theorem findAllValidSegmentsAux_complete (p : RiverPath) (m : GeometryMetrics)
    (rej : Finset ℕ) :
    ∀ fuel s0, p.points.length - s0 ≤ fuel →
      ∀ a b, s0 ≤ a → a < b → b < p.points.length →
        (∀ k, a ≤ k → k ≤ b → k ∉ rej) → 0 < windowLen p.points a b →
        ∃ c ∈ findAllValidSegmentsAux p m rej s0,
          windowLen p.points a b ≤ c.segment.length := by
  intro fuel
  induction fuel with
  | zero =>
    intro s0 hf a b ha hab hb hfree hpos
    omega
  | succ fuel ih =>
    intro s0 hf a b ha hab hb hfree hpos
    by_cases hlt : s0 < p.points.length - 1
    · rw [findAllValidSegmentsAux.eq_def, dif_pos hlt]
      by_cases hre : s0 ∈ rej
      · rw [if_pos hre]
        have hane : a ≠ s0 := fun h => (h ▸ hfree a le_rfl (le_of_lt hab)) hre
        exact ih (s0 + 1) (by omega) a b (by omega) hab hb hfree hpos
      · rw [if_neg hre]
        rcases heq : extendRun p.points rej (s0 + 1) s0 0 with ⟨e, L⟩
        have heq2 : extendRun p.points rej (s0 + 1) ((s0 + 1) - 1)
            (windowLen p.points s0 ((s0 + 1) - 1)) = (e, L) := by
          rw [show (s0 + 1) - 1 = s0 from rfl,
            show windowLen p.points s0 s0 = 0 by simp [windowLen]]
          exact heq
        obtain ⟨hge, helen, hL, hfreeE, hmax⟩ := extendRun_spec p.points rej s0
          (p.points.length - (s0 + 1)) (s0 + 1) le_rfl (by omega) (by omega)
          (by omega) e L heq2
        rcases Nat.lt_or_ge e a with hea | hea
        · -- the run [a,b] lies strictly beyond e, recurse
          by_cases h2 : 0 < (e, L).2 ∧ s0 < (e, L).1
          · rw [dif_pos h2]
            obtain ⟨c, hcmem, hclen⟩ := ih (e + 1) (by omega) a b (by omega)
              hab hb hfree hpos
            exact ⟨c, List.mem_cons_of_mem _ hcmem, hclen⟩
          · rw [dif_neg h2]
            exact ih (s0 + 1) (by omega) a b (by omega) hab hb hfree hpos
        · -- a ≤ e; then b ≤ e as well, and the emitted run covers [a,b]
          have hbe : b ≤ e := by
            by_contra hbe
            have he1b : e + 1 ≤ b := by omega
            have : e + 1 ∉ rej := hfree (e + 1) (by omega) he1b
            rcases hmax with h | h
            · omega
            · exact this h
          have hwin : windowLen p.points a b ≤ windowLen p.points s0 e :=
            windowLen_mono p.points ha hbe
          have h2 : 0 < (e, L).2 ∧ s0 < (e, L).1 := by
            constructor
            · show 0 < L
              rw [hL]
              exact lt_of_lt_of_le hpos hwin
            · show s0 < e
              omega
          rw [dif_pos h2]
          refine ⟨mkCandidate p m s0 e L, List.mem_cons_self _ _, ?_⟩
          show windowLen p.points a b ≤ L
          rw [hL]
          exact hwin
    · exfalso
      omega

theorem longestFold_mem : ∀ (ts : List Candidate) (t : Candidate),
    longestFold t ts ∈ t :: ts := by
  intro ts
  induction ts with
  | nil => intro t; simp [longestFold]
  | cons c ts2 ih =>
    intro t
    have hfold : longestFold t (c :: ts2) =
        longestFold (if t.segment.length < c.segment.length then c else t) ts2 := by
      simp [longestFold]
    rw [hfold]
    by_cases h : t.segment.length < c.segment.length
    · rw [if_pos h]
      exact List.mem_cons_of_mem _ (ih c)
    · rw [if_neg h]
      rcases List.mem_cons.mp (ih t) with hb | hb
      · rw [hb]; exact List.mem_cons_self _ _
      · exact List.mem_cons_of_mem _ (List.mem_cons_of_mem _ hb)

theorem longestFold_max : ∀ (ts : List Candidate) (t : Candidate),
    ∀ d ∈ t :: ts, d.segment.length ≤ (longestFold t ts).segment.length := by
  intro ts
  induction ts with
  | nil =>
    intro t d hd
    rcases List.mem_cons.mp hd with heq | hd
    · rw [heq]; simp [longestFold]
    · simp at hd
  | cons c ts2 ih =>
    intro t d hd
    have hfold : longestFold t (c :: ts2) =
        longestFold (if t.segment.length < c.segment.length then c else t) ts2 := by
      simp [longestFold]
    rw [hfold]
    by_cases h : t.segment.length < c.segment.length
    · rw [if_pos h]
      rcases List.mem_cons.mp hd with heq | hd
      · rw [heq]
        exact le_trans (le_of_lt h) (ih c c (List.mem_cons_self _ _))
      · exact ih c d hd
    · rw [if_neg h]
      rcases List.mem_cons.mp hd with heq | hd
      · rw [heq]
        exact ih t t (List.mem_cons_self _ _)
      · rcases List.mem_cons.mp hd with heq | hd
        · rw [heq]
          exact le_trans (not_lt.mp h) (ih t t (List.mem_cons_self _ _))
        · exact ih t d (List.mem_cons_of_mem _ hd)

/-- C4 amended: when no text-fitting candidate exists, the fallback keys
on runs of at least TWO consecutive non-rejected indices with positive
arclength, not on single non-rejected points.  If such a run exists, the
result is the longest such run (its window rejected-free, its stored
length at least the arclength of every such run) with a non-null warning
and the fallback list as `allCandidates`; if none exists — even when
isolated single non-rejected points remain, see the counterexample — the
result is a null placement, a non-null warning, and an empty list. -/
theorem C4_fallback_longest_run_or_null (p : RiverPath) (text : String)
    (fontSize : ℝ) (m : GeometryMetrics)
    (hnofit : findCandidates p (measureTextLength text fontSize) m = []) :
    ((∃ a b, a < b ∧ b < p.points.length ∧
        (∀ k, a ≤ k → k ≤ b → k ∉ rejectedIndices m) ∧
        0 < windowLen p.points a b) →
      ∃ c, (findOptimalPlacement p text fontSize m).placement = some c ∧
        (findOptimalPlacement p text fontSize m).warning ≠ none ∧
        (findOptimalPlacement p text fontSize m).allCandidates =
          findAllValidSegmentsAux p m (rejectedIndices m) 0 ∧
        (∀ k, c.segment.startIdx ≤ k → k ≤ c.segment.endIdx →
          k ∉ rejectedIndices m) ∧
        (∀ a b, a < b → b < p.points.length →
          (∀ k, a ≤ k → k ≤ b → k ∉ rejectedIndices m) →
          windowLen p.points a b ≤ c.segment.length)) ∧
    ((¬ ∃ a b, a < b ∧ b < p.points.length ∧
        (∀ k, a ≤ k → k ≤ b → k ∉ rejectedIndices m) ∧
        0 < windowLen p.points a b) →
      (findOptimalPlacement p text fontSize m).placement = none ∧
      (findOptimalPlacement p text fontSize m).warning ≠ none ∧
      (findOptimalPlacement p text fontSize m).allCandidates = []) := by
  cases haux : findAllValidSegmentsAux p m (rejectedIndices m) 0 with
  | nil =>
    have hfop : findOptimalPlacement p text fontSize m =
        { placement := none,
          warning := some "No suitable placement found: entire river path has problematic geometry (sharp curves, narrow sections, or too short)",
          allCandidates := [], textLength := measureTextLength text fontSize } := by
      unfold findOptimalPlacement
      rw [hnofit, haux]
    constructor
    · rintro ⟨a, b, hab, hb, hfree, hpos⟩
      exfalso
      obtain ⟨c, hcmem, _⟩ := findAllValidSegmentsAux_complete p m
        (rejectedIndices m) p.points.length 0 (by omega) a b (by omega) hab hb
        hfree hpos
      rw [haux] at hcmem
      simp at hcmem
    · intro _
      rw [hfop]
      exact ⟨rfl, by simp, rfl⟩
  | cons s ss =>
    have hfop : findOptimalPlacement p text fontSize m =
        { placement := some (longestFold s ss),
          warning := some "Text length exceeds longest suitable segment. Text may be truncated or overlap.",
          allCandidates := s :: ss, textLength := measureTextLength text fontSize } := by
      unfold findOptimalPlacement
      rw [hnofit, haux]
    constructor
    · intro _
      have hbmem : longestFold s ss ∈ findAllValidSegmentsAux p m (rejectedIndices m) 0 := by
        rw [haux]
        exact longestFold_mem ss s
      obtain ⟨s2, e2, hse2, helen2, hceq2, hpos2, hfree2⟩ :=
        findAllValidSegmentsAux_sound p m (rejectedIndices m) p.points.length 0
          (by omega) _ hbmem
      refine ⟨longestFold s ss, by rw [hfop], by rw [hfop]; simp, by rw [hfop], ?_, ?_⟩
      · intro k hk1 hk2
        rw [hceq2] at hk1 hk2
        exact hfree2 k hk1 hk2
      · intro a b hab hb hfree
        by_cases hpos : 0 < windowLen p.points a b
        · obtain ⟨d, hdmem, hdlen⟩ := findAllValidSegmentsAux_complete p m
            (rejectedIndices m) p.points.length 0 (by omega) a b (by omega) hab hb
            hfree hpos
          rw [haux] at hdmem
          exact le_trans hdlen (longestFold_max ss s d hdmem)
        · have h0 : windowLen p.points a b = 0 :=
            le_antisymm (not_lt.mp hpos) (windowLen_nonneg _ _ _)
          rw [h0, hceq2]
          exact le_of_lt hpos2
    · intro hno
      exfalso
      obtain ⟨s2, e2, hse2, helen2, _, hpos2, hfree2⟩ :=
        findAllValidSegmentsAux_sound p m (rejectedIndices m) p.points.length 0
          (by omega) s (by rw [haux]; exact List.mem_cons_self _ _)
      exact hno ⟨s2, e2, hse2, helen2, hfree2, hpos2⟩

/-- Metrics rejecting exactly the endpoint indices 0 and 2 of a 3-point
path, so index 1 is non-rejected but isolated. -/
noncomputable def mC4 : GeometryMetrics :=
  { curvatures := [0, 0, 0]
    sharpCurves := [⟨0, 0, 0, "sharp curve"⟩, ⟨2, 2, 0, "sharp curve"⟩]
    narrowSections := []
    edgeSections := ⟨⟨1, 0, 0, "edge section"⟩, ⟨1, 0, 0, "edge section"⟩⟩
    avgCurvature := 0
    maxCurvature := 0 }

theorem mem_rejectedIndices_mC4 : ∀ i, i ∈ rejectedIndices mC4 ↔ (i = 0 ∨ i = 2) := by
  intro i
  unfold rejectedIndices mC4
  simp [Finset.mem_union, Finset.mem_Icc]
  omega

theorem findCandidates_eval_C4 (tl : ℝ) : findCandidates pathW tl mC4 = [] := by
  unfold findCandidates
  rw [show pathW.points.length - 1 = 2 from rfl]
  rw [show List.range 2 = [0, 1] from rfl]
  simp only [List.flatMap_cons, List.flatMap_nil]
  rw [if_pos ((mem_rejectedIndices_mC4 0).mpr (Or.inl rfl))]
  rw [if_neg (fun h => by have := (mem_rejectedIndices_mC4 1).mp h; omega)]
  rw [findCandInner.eq_def,
    dif_pos (by norm_num [pathW] : 1 + 1 < pathW.points.length),
    if_pos ((mem_rejectedIndices_mC4 (1 + 1)).mpr (Or.inr rfl))]
  simp

theorem findAllValidSegmentsAux_eval_C4 :
    findAllValidSegmentsAux pathW mC4 (rejectedIndices mC4) 0 = [] := by
  rw [findAllValidSegmentsAux.eq_def,
    dif_pos (by norm_num [pathW] : (0:ℕ) < pathW.points.length - 1)]
  rw [if_pos ((mem_rejectedIndices_mC4 0).mpr (Or.inl rfl))]
  rw [findAllValidSegmentsAux.eq_def,
    dif_pos (by norm_num [pathW] : 0 + 1 < pathW.points.length - 1)]
  rw [if_neg (fun h => by have := (mem_rejectedIndices_mC4 (0 + 1)).mp h; omega)]
  have hext : extendRun pathW.points (rejectedIndices mC4) (0 + 1 + 1) (0 + 1) 0 =
      (1, 0) := by
    rw [extendRun.eq_def,
      dif_pos (by norm_num [pathW] : 0 + 1 + 1 < pathW.points.length),
      if_pos ((mem_rejectedIndices_mC4 (0 + 1 + 1)).mpr (Or.inr rfl))]
  rw [hext]
  rw [dif_neg (by norm_num)]
  rw [findAllValidSegmentsAux.eq_def,
    dif_neg (by norm_num [pathW] : ¬ 0 + 1 + 1 < pathW.points.length - 1)]

/-- C4 counterexample: on the 3-point path with indices 0 and 2 rejected,
no text-fitting candidate exists and index 1 is a (single-point)
non-rejected run, yet `findOptimalPlacement` returns a null placement
with the "entire path is problematic" warning instead of returning that
longest non-rejected run. -/
theorem C4_counterexample :
    findCandidates pathW (measureTextLength "AB" 16) mC4 = [] ∧
    1 ∉ rejectedIndices mC4 ∧ 1 < pathW.points.length ∧
    (findOptimalPlacement pathW "AB" 16 mC4).placement = none ∧
    (findOptimalPlacement pathW "AB" 16 mC4).warning =
      some "No suitable placement found: entire river path has problematic geometry (sharp curves, narrow sections, or too short)" := by
  have hfop : findOptimalPlacement pathW "AB" 16 mC4 =
      { placement := none,
        warning := some "No suitable placement found: entire river path has problematic geometry (sharp curves, narrow sections, or too short)",
        allCandidates := [], textLength := measureTextLength "AB" 16 } := by
    unfold findOptimalPlacement
    rw [findCandidates_eval_C4, findAllValidSegmentsAux_eval_C4]
  refine ⟨findCandidates_eval_C4 _, ?_, by norm_num [pathW], by rw [hfop], by rw [hfop]⟩
  intro h
  have := (mem_rejectedIndices_mC4 1).mp h
  omega

/-- C4 witness: the amended fallback theorem applied at the concrete
input, where no two-point non-rejected run exists, so the null-placement
branch fires. -/
theorem C4_witness :
    (findOptimalPlacement pathW "AB" 16 mC4).placement = none ∧
    (findOptimalPlacement pathW "AB" 16 mC4).warning ≠ none ∧
    (findOptimalPlacement pathW "AB" 16 mC4).allCandidates = [] := by
  have h := C4_fallback_longest_run_or_null pathW "AB" 16 mC4 (findCandidates_eval_C4 _)
  refine h.2 ?_
  rintro ⟨a, b, hab, hb, hfree, _hpos⟩
  have hb3 : b < 3 := by
    have : pathW.points.length = 3 := by norm_num [pathW]
    omega
  have hA : a ∉ rejectedIndices mC4 := hfree a le_rfl (le_of_lt hab)
  have hB : b ∉ rejectedIndices mC4 := hfree b (le_of_lt hab) le_rfl
  have hA0 : a ≠ 0 := fun h0 => hA ((mem_rejectedIndices_mC4 a).mpr (Or.inl h0))
  have hB2 : b ≠ 2 := fun h2 => hB ((mem_rejectedIndices_mC4 b).mpr (Or.inr h2))
  omega

/-! ## C3: pipeline candidate scores lie in [0, 100] -/

theorem rawCurvature_nonneg (ps : List Point) (i : ℕ) : 0 ≤ rawCurvature ps i := by
  simp only [rawCurvature]
  split_ifs with h1 h2
  · exact le_refl 0
  · apply div_nonneg
    · apply mul_nonneg (Real.arccos_nonneg _)
      positivity
    · exact le_of_lt h2
  · exact le_refl 0

theorem rawCurvatureArr_nonneg (ps : List Point) (i : ℕ) :
    0 ≤ rawCurvatureArr ps i := by
  unfold rawCurvatureArr
  split_ifs
  · exact rawCurvature_nonneg _ _
  · exact le_refl 0

theorem calculateCurvature_nonneg (p : RiverPath) :
    ∀ x ∈ calculateCurvature p, 0 ≤ x := by
  intro x hx
  unfold calculateCurvature at hx
  by_cases hn : p.points.length < 3
  · rw [if_pos hn] at hx
    simp at hx
  · rw [if_neg hn] at hx
    simp only [List.mem_map] at hx
    obtain ⟨i, _, rfl⟩ := hx
    have h0 := rawCurvatureArr_nonneg p.points (i - 1)
    have h1 := rawCurvatureArr_nonneg p.points i
    have h2 := rawCurvatureArr_nonneg p.points (i + 1)
    split_ifs
    · exact le_refl 0
    · linarith
    · linarith
    · linarith

theorem segAvg_nonneg (vals : ℕ → ℝ) (sel : ℕ → Prop) [DecidablePred sel] (s e : ℕ)
    (h : ∀ i, s ≤ i → i ≤ e → sel i → 0 ≤ vals i) : 0 ≤ segAvg vals sel s e := by
  unfold segAvg
  split_ifs with hc
  · apply div_nonneg
    · apply Finset.sum_nonneg
      intro i hi
      simp only [Finset.mem_Icc] at hi
      split_ifs with hsel
      · exact h i hi.1 hi.2 hsel
      · exact le_refl 0
    · positivity
  · exact le_refl 0

theorem calculateCurvatureScore_bounds (p : RiverPath) (s e : ℕ) (m : GeometryMetrics)
    (hnn : ∀ x ∈ m.curvatures, 0 ≤ x) :
    0 ≤ calculateCurvatureScore p s e m ∧ calculateCurvatureScore p s e m ≤ 100 := by
  unfold calculateCurvatureScore
  constructor
  · exact le_max_left 0 _
  · have havg : 0 ≤ segAvg (fun i => m.curvatures.getD i 0)
        (fun i => i < m.curvatures.length) s e := by
      apply segAvg_nonneg
      intro i _ _ hsel
      apply hnn
      rw [List.getD_eq_getElem _ _ hsel]
      exact List.getElem_mem _
    rw [max_le_iff]
    constructor <;> linarith

theorem calculateWidthScore_none (p : RiverPath) (s e : ℕ)
    (hw : p.widths = none) : calculateWidthScore p s e = 50 := by
  unfold calculateWidthScore
  rw [hw]

theorem calculateWidthScore_some (p : RiverPath) (ws : List (Option ℝ)) (s e : ℕ)
    (hw : p.widths = some ws) :
    calculateWidthScore p s e =
      if ws.length = 0 then 50
      else min 100 (segAvg (fun i => (ws.getD i none).getD 0)
        (fun i => i < ws.length ∧ ws.getD i none ≠ none) s e / 20 * 100) := by
  unfold calculateWidthScore
  rw [hw]

theorem calculateWidthScore_bounds (p : RiverPath) (s e : ℕ)
    (hfree : ∀ ws, p.widths = some ws → ∀ i, s ≤ i → i ≤ e → i < ws.length →
      ¬ (ws.getD i none).getD 0 < 10) :
    0 ≤ calculateWidthScore p s e ∧ calculateWidthScore p s e ≤ 100 := by
  cases hw : p.widths with
  | none => rw [calculateWidthScore_none p s e hw]; norm_num
  | some ws =>
    rw [calculateWidthScore_some p ws s e hw]
    by_cases hlen : ws.length = 0
    · rw [if_pos hlen]; norm_num
    · rw [if_neg hlen]
      have havg : 0 ≤ segAvg (fun i => (ws.getD i none).getD 0)
          (fun i => i < ws.length ∧ ws.getD i none ≠ none) s e := by
        apply segAvg_nonneg
        intro i hi1 hi2 hsel
        have := hfree ws hw i hi1 hi2 hsel.1
        linarith [not_lt.mp this]
      constructor
      · rw [le_min_iff]
        constructor
        · norm_num
        · positivity
      · exact min_le_left _ _

theorem clippedDistSum_nonneg (ps : List Point) (a b : ℕ) :
    0 ≤ clippedDistSum ps a b := by
  unfold clippedDistSum
  apply Finset.sum_nonneg
  intro i _
  split_ifs
  · exact ptDist_nonneg _ _
  · exact le_refl 0

theorem clippedDistSum_zero_le_totalLen (ps : List Point) (b : ℕ) :
    clippedDistSum ps 0 b ≤ totalLen ps := by
  unfold clippedDistSum totalLen
  rw [show Finset.Ico 0 b = Finset.range b from by rw [Finset.range_eq_Ico]]
  rw [← Finset.sum_filter]
  apply Finset.sum_le_sum_of_subset_of_nonneg
  · intro x hx
    simp only [Finset.mem_filter, Finset.mem_range] at hx
    simp only [Finset.mem_range]
    exact hx.2
  · intro i _ _
    exact ptDist_nonneg _ _

theorem clippedDistSum_split (ps : List Point) {a b c : ℕ} (h1 : a ≤ b) (h2 : b ≤ c) :
    clippedDistSum ps a b + clippedDistSum ps b c = clippedDistSum ps a c := by
  unfold clippedDistSum
  exact Finset.sum_Ico_consecutive _ h1 h2

theorem calculatePositionScore_bounds (p : RiverPath) (s e : ℕ)
    (hlen : p.length = totalLen p.points) (hse : s ≤ e) :
    0 ≤ calculatePositionScore p s e ∧ calculatePositionScore p s e ≤ 100 := by
  unfold calculatePositionScore
  split_ifs with hpos
  · have hc0 : 0 ≤ clippedDistSum p.points 0 s := clippedDistSum_nonneg _ _ _
    have hcs : 0 ≤ clippedDistSum p.points s e := clippedDistSum_nonneg _ _ _
    have hsum : clippedDistSum p.points 0 s + clippedDistSum p.points s e ≤ p.length := by
      rw [clippedDistSum_split p.points (Nat.zero_le s) hse, hlen]
      exact clippedDistSum_zero_le_totalLen _ _
    have habs : |clippedDistSum p.points 0 s + clippedDistSum p.points s e / 2 -
        p.length / 2| ≤ p.length / 2 := by
      rw [abs_le]
      constructor <;> linarith
    have hdiv : |clippedDistSum p.points 0 s + clippedDistSum p.points s e / 2 -
        p.length / 2| / (p.length / 2) ≤ 1 := by
      rw [div_le_one hpos]
      linarith
    have hdiv0 : 0 ≤ |clippedDistSum p.points 0 s + clippedDistSum p.points s e / 2 -
        p.length / 2| / (p.length / 2) := by positivity
    constructor <;> nlinarith
  · norm_num

theorem calculateStraightnessScore_bounds (p : RiverPath) (s e : ℕ) :
    0 ≤ calculateStraightnessScore p s e ∧ calculateStraightnessScore p s e ≤ 100 := by
  unfold calculateStraightnessScore
  split_ifs
  · norm_num
  · norm_num
  · constructor
    · exact le_max_left 0 _
    · have hvd : 0 ≤ headingVarianceDeg (headingAngles p.points s e) := by
        unfold headingVarianceDeg
        apply mul_nonneg (Real.sqrt_nonneg _)
        positivity
      rw [max_le_iff]
      constructor <;> linarith

theorem mem_segs_foldr (l : List Seg) (i : ℕ) :
    (i ∈ l.foldr (fun sg acc => acc ∪ Finset.Icc sg.startIdx sg.endIdx)
      (∅ : Finset ℕ)) ↔
      ∃ sg ∈ l, sg.startIdx ≤ i ∧ i ≤ sg.endIdx := by
  induction l with
  | nil => simp
  | cons sg rest ih =>
    simp only [List.foldr_cons, Finset.mem_union, Finset.mem_Icc, ih]
    constructor
    · rintro (⟨sg2, h1, h2⟩ | h)
      · exact ⟨sg2, List.mem_cons_of_mem _ h1, h2⟩
      · exact ⟨sg, List.mem_cons_self _ _, h⟩
    · rintro ⟨sg2, hmem, h⟩
      rcases List.mem_cons.mp hmem with heq | hmem
      · right
        exact heq ▸ h
      · left
        exact ⟨sg2, hmem, h⟩

theorem mem_rejected_of_narrow (m : GeometryMetrics) {sg : Seg}
    (h : sg ∈ m.narrowSections) {i : ℕ} (h1 : sg.startIdx ≤ i) (h2 : i ≤ sg.endIdx) :
    i ∈ rejectedIndices m := by
  unfold rejectedIndices
  simp only [Finset.mem_union]
  exact Or.inl (Or.inl (Or.inr ((mem_segs_foldr _ _).mpr ⟨sg, h, h1, h2⟩)))

theorem analyzeGeometry_curvatures (p : RiverPath) :
    (analyzeGeometry p).curvatures = calculateCurvature p := rfl

theorem analyzeGeometry_narrowSections (p : RiverPath) (ws : List (Option ℝ))
    (hw : p.widths = some ws) :
    (analyzeGeometry p).narrowSections =
      if 0 < ws.length then findNarrowSections p 10 else [] := by
  show (match p.widths with
    | some ws => if 0 < ws.length then findNarrowSections p 10 else []
    | none => []) = _
  rw [hw]

/-- C3: every candidate produced by the pipeline — candidate enumeration
over a parser-built PathModel with metrics from `analyzeGeometry` — has
all four component scores and the weighted overall score in [0, 100]. -/
theorem C3_pipeline_scores_in_range (cs : List (List ℝ)) (path : RiverPath)
    (tl : ℝ) (c : Candidate) (hparse : parseCoords cs = .ok path)
    (hc : c ∈ findCandidates path tl (analyzeGeometry path)) :
    (0 ≤ c.scores.curvature ∧ c.scores.curvature ≤ 100) ∧
    (0 ≤ c.scores.width ∧ c.scores.width ≤ 100) ∧
    (0 ≤ c.scores.position ∧ c.scores.position ≤ 100) ∧
    (0 ≤ c.scores.straightness ∧ c.scores.straightness ≤ 100) ∧
    (0 ≤ c.score ∧ c.score ≤ 100) := by
  obtain ⟨s, e, hse, helen, hceq, _htl, hfree⟩ :=
    findCandidates_mem path tl (analyzeGeometry path) c hc
  have hcur := calculateCurvatureScore_bounds path s e (analyzeGeometry path)
    (by rw [analyzeGeometry_curvatures]; exact calculateCurvature_nonneg path)
  have hfw : ∀ ws, path.widths = some ws → ∀ i, s ≤ i → i ≤ e → i < ws.length →
      ¬ (ws.getD i none).getD 0 < 10 := by
    intro ws hws i hi1 hi2 hilen hlt
    obtain ⟨sg, hsgmem, hsg1, hsg2⟩ :=
      (findNarrowSections_mem_iff path ws 10 hws i hilen).mpr hlt
    have hsgm : sg ∈ (analyzeGeometry path).narrowSections := by
      rw [analyzeGeometry_narrowSections path ws hws, if_pos (by omega)]
      exact hsgmem
    exact hfree i hi1 hi2 (mem_rejected_of_narrow _ hsgm hsg1 hsg2)
  have hwid := calculateWidthScore_bounds path s e hfw
  have hpos := calculatePositionScore_bounds path s e
    (parseCoords_ok_length hparse) (le_of_lt hse)
  have hst := calculateStraightnessScore_bounds path s e
  subst hceq
  refine ⟨hcur, hwid, hpos, hst, ?_, ?_⟩
  · show 0 ≤ calculateCurvatureScore path s e (analyzeGeometry path) * 0.4 +
      calculateWidthScore path s e * 0.2 + calculatePositionScore path s e * 0.2 +
      calculateStraightnessScore path s e * 0.2
    obtain ⟨h1, _⟩ := hcur
    obtain ⟨h3, _⟩ := hwid
    obtain ⟨h5, _⟩ := hpos
    obtain ⟨h7, _⟩ := hst
    linarith
  · show calculateCurvatureScore path s e (analyzeGeometry path) * 0.4 +
      calculateWidthScore path s e * 0.2 + calculatePositionScore path s e * 0.2 +
      calculateStraightnessScore path s e * 0.2 ≤ 100
    obtain ⟨_, h2⟩ := hcur
    obtain ⟨_, h4⟩ := hwid
    obtain ⟨_, h6⟩ := hpos
    obtain ⟨_, h8⟩ := hst
    linarith

/-- Coordinates of the 6-point pipeline-witness path. -/
noncomputable def cs6 : List (List ℝ) :=
  [[0, 0], [10, 0], [20, 0], [30, 0], [40, 0], [50, 0]]

/-- Expected parse of `cs6`. -/
noncomputable def path6 : RiverPath :=
  { points := [⟨0, 0⟩, ⟨10, 0⟩, ⟨20, 0⟩, ⟨30, 0⟩, ⟨40, 0⟩, ⟨50, 0⟩]
    widths := none
    length := 50
    bounds := ⟨0, 50, 0, 0⟩ }

theorem parseCoords_eval_6 : parseCoords cs6 = .ok path6 := by
  apply parseCoords_eval
  · rfl
  · simp [cs6, extractPoints, coordPoint, path6]
  · simp [cs6, anyWidth, path6]
  · unfold totalLen pt
    norm_num [path6, Finset.sum_range_succ, ptDist, sqrt_100]
  · unfold computeBounds pt
    norm_num [path6, min_def, max_def, Bounds.mk.injEq]

theorem rawC6_1 : rawCurvature [(⟨0, 0⟩ : Point), ⟨10, 0⟩, ⟨20, 0⟩, ⟨30, 0⟩, ⟨40, 0⟩,
    ⟨50, 0⟩] 1 = 0 := by
  norm_num [rawCurvature, pt, sqrt_100, min_def, max_def, Real.arccos_one]

theorem rawC6_2 : rawCurvature [(⟨0, 0⟩ : Point), ⟨10, 0⟩, ⟨20, 0⟩, ⟨30, 0⟩, ⟨40, 0⟩,
    ⟨50, 0⟩] 2 = 0 := by
  norm_num [rawCurvature, pt, sqrt_100, min_def, max_def, Real.arccos_one]

theorem rawC6_3 : rawCurvature [(⟨0, 0⟩ : Point), ⟨10, 0⟩, ⟨20, 0⟩, ⟨30, 0⟩, ⟨40, 0⟩,
    ⟨50, 0⟩] 3 = 0 := by
  norm_num [rawCurvature, pt, sqrt_100, min_def, max_def, Real.arccos_one]

theorem rawC6_4 : rawCurvature [(⟨0, 0⟩ : Point), ⟨10, 0⟩, ⟨20, 0⟩, ⟨30, 0⟩, ⟨40, 0⟩,
    ⟨50, 0⟩] 4 = 0 := by
  norm_num [rawCurvature, pt, sqrt_100, min_def, max_def, Real.arccos_one]

theorem calculateCurvature_eval_6 :
    calculateCurvature path6 = [0, 0, 0, 0, 0, 0] := by
  unfold calculateCurvature
  rw [show path6.points =
    [⟨0, 0⟩, ⟨10, 0⟩, ⟨20, 0⟩, ⟨30, 0⟩, ⟨40, 0⟩, ⟨50, 0⟩] from rfl]
  norm_num
  rw [show List.range 6 = [0, 1, 2, 3, 4, 5] from rfl]
  simp only [List.map_cons, List.map_nil]
  norm_num [rawCurvatureArr, rawC6_1, rawC6_2, rawC6_3, rawC6_4]

theorem findSharpCurves_eval_6 : findSharpCurves path6 30 = [] := by
  simp only [findSharpCurves]
  rw [if_neg (by norm_num [path6])]
  rw [calculateCurvature_eval_6]
  rw [show ([0, 0, 0, 0, 0, 0] : List ℝ).length = 6 from rfl]
  rw [runScan.eq_def, dif_pos (by norm_num : (0:ℕ) < 6),
    if_neg (by norm_num : ¬ ([0, 0, 0, 0, 0, 0] : List ℝ).getD 0 0 > 30)]
  rw [runScan.eq_def, dif_pos (by norm_num : 0 + 1 < 6),
    if_neg (by norm_num : ¬ ([0, 0, 0, 0, 0, 0] : List ℝ).getD (0 + 1) 0 > 30)]
  rw [runScan.eq_def, dif_pos (by norm_num : 0 + 1 + 1 < 6),
    if_neg (by norm_num : ¬ ([0, 0, 0, 0, 0, 0] : List ℝ).getD (0 + 1 + 1) 0 > 30)]
  rw [runScan.eq_def, dif_pos (by norm_num : 0 + 1 + 1 + 1 < 6),
    if_neg (by norm_num : ¬ ([0, 0, 0, 0, 0, 0] : List ℝ).getD (0 + 1 + 1 + 1) 0 > 30)]
  rw [runScan.eq_def, dif_pos (by norm_num : 0 + 1 + 1 + 1 + 1 < 6),
    if_neg (by norm_num :
      ¬ ([0, 0, 0, 0, 0, 0] : List ℝ).getD (0 + 1 + 1 + 1 + 1) 0 > 30)]
  rw [runScan.eq_def, dif_pos (by norm_num : 0 + 1 + 1 + 1 + 1 + 1 < 6),
    if_neg (by norm_num :
      ¬ ([0, 0, 0, 0, 0, 0] : List ℝ).getD (0 + 1 + 1 + 1 + 1 + 1) 0 > 30)]
  rw [runScan.eq_def, dif_neg (by norm_num : ¬ 0 + 1 + 1 + 1 + 1 + 1 + 1 < 6)]
  simp

theorem scanForward_eval_6 :
    scanForward path6.points (path6.length * 0.1) 0 0 = 1 := by
  rw [scanForward.eq_def]
  rw [dif_pos (by norm_num [path6] : (0:ℕ) < path6.points.length - 1)]
  rw [if_pos (by norm_num [path6, pt, ptDist, sqrt_100])]

theorem scanBackward_eval_6 :
    scanBackward path6.points (path6.length * 0.1) (path6.points.length - 1) 0 = 4 := by
  rw [show path6.points.length - 1 = 5 from rfl]
  rw [scanBackward.eq_def, dif_pos (by norm_num : (0:ℕ) < 5)]
  rw [if_pos (by norm_num [path6, pt, ptDist, sqrt_100])]

theorem getEdgeSections_eval_6 :
    getEdgeSections path6 =
      ⟨⟨0, 1, 10, "edge section"⟩, ⟨4, 5, 10, "edge section"⟩⟩ := by
  have hcs01 : calcSegLength path6.points 0 1 = 10 := by
    unfold calcSegLength
    rw [Finset.sum_Ico_succ_top (by norm_num), Finset.Ico_self, Finset.sum_empty]
    norm_num [pt, ptDist, path6, sqrt_100]
  have hcs45 : calcSegLength path6.points 4 5 = 10 := by
    unfold calcSegLength
    rw [Finset.sum_Ico_succ_top (by norm_num), Finset.Ico_self, Finset.sum_empty]
    norm_num [pt, ptDist, path6, sqrt_100]
  simp only [getEdgeSections]
  rw [scanForward_eval_6, scanBackward_eval_6]
  rw [if_neg (by norm_num), if_neg (by norm_num [path6])]
  rw [EdgeSections.mk.injEq, Seg.mk.injEq, Seg.mk.injEq]
  refine ⟨⟨rfl, rfl, hcs01, rfl⟩, ?_, ?_, ?_, rfl⟩
  · rfl
  · norm_num [path6]
  · rw [show path6.points.length - 1 = 5 from rfl]
    exact hcs45

/-- The full analysis of `path6`. -/
noncomputable def m6 : GeometryMetrics :=
  { curvatures := [0, 0, 0, 0, 0, 0]
    sharpCurves := []
    narrowSections := []
    edgeSections := ⟨⟨0, 1, 10, "edge section"⟩, ⟨4, 5, 10, "edge section"⟩⟩
    avgCurvature := 0
    maxCurvature := 0 }

theorem analyzeGeometry_eval_6 : analyzeGeometry path6 = m6 := by
  unfold analyzeGeometry
  rw [calculateCurvature_eval_6, findSharpCurves_eval_6, getEdgeSections_eval_6]
  unfold m6
  rw [GeometryMetrics.mk.injEq]
  refine ⟨rfl, rfl, rfl, rfl, ?_, ?_⟩
  · rw [if_pos (by norm_num)]
    rw [show ([0, 0, 0, 0, 0, 0] : List ℝ).length = 6 from rfl]
    norm_num
    rw [show Finset.Ico 1 (6 - 1) = {1, 2, 3, 4} from rfl]
    norm_num
  · norm_num [listMaxD]

theorem mem_rej_m6 : ∀ i, i ∈ rejectedIndices m6 ↔ (i ≤ 1 ∨ (4 ≤ i ∧ i ≤ 5)) := by
  intro i
  unfold rejectedIndices m6
  simp

/-- The single candidate enumerated on `path6` for text length 5. -/
noncomputable def c6 : Candidate :=
  mkCandidate path6 m6 2 3 (0 + ptDist (pt path6.points 2) (pt path6.points 3))

theorem c6_mem : c6 ∈ findCandidates path6 5 (analyzeGeometry path6) := by
  rw [analyzeGeometry_eval_6]
  unfold findCandidates
  rw [List.mem_flatMap]
  refine ⟨2, ?_, ?_⟩
  · show 2 ∈ List.range (path6.points.length - 1)
    simp [path6]
  · rw [if_neg (fun h => by have := (mem_rej_m6 2).mp h; omega)]
    rw [findCandInner.eq_def,
      dif_pos (by norm_num [path6] : 2 + 1 < path6.points.length)]
    rw [if_neg (fun h => by have := (mem_rej_m6 (2 + 1)).mp h; omega)]
    rw [if_neg (by
      rintro ⟨i, hi, _⟩
      simp at hi
      omega)]
    rw [if_pos (by norm_num [pt, ptDist, path6, sqrt_100] :
      (5:ℝ) ≤ 0 + ptDist (pt path6.points (2 + 1 - 1)) (pt path6.points (2 + 1)))]
    exact List.mem_append_left _ (List.mem_singleton_self _)

/-- C3 witness: the score-range theorem applied to the concrete pipeline
run on the 6-point horizontal path with text length 5. -/
theorem C3_witness :
    (0 ≤ c6.scores.curvature ∧ c6.scores.curvature ≤ 100) ∧
    (0 ≤ c6.scores.width ∧ c6.scores.width ≤ 100) ∧
    (0 ≤ c6.scores.position ∧ c6.scores.position ≤ 100) ∧
    (0 ≤ c6.scores.straightness ∧ c6.scores.straightness ≤ 100) ∧
    (0 ≤ c6.score ∧ c6.score ≤ 100) :=
  C3_pipeline_scores_in_range cs6 path6 5 c6 parseCoords_eval_6 c6_mem

/-! ## C10: no sign check on widths; negative widths become narrow regions -/

/-- C10: validation accepts any ≥3-element coordinate list whose entries
have 2 or 3 numeric fields — no sign check on the width field — yielding
a width-aware PathModel when any entry carries a width; and every stored
width entry below the default minimum 10 (zero and negative widths
included) puts its index into a narrow-section rejected region and hence
outside every candidate window. -/
theorem C10_no_width_sign_check (cs : List (List ℝ))
    (h3 : 3 ≤ cs.length) (hshape : ∀ co ∈ cs, co.length = 2 ∨ co.length = 3) :
    ∃ path, parseCoords cs = .ok path ∧
      ((∃ co ∈ cs, co.length = 3) → path.widths ≠ none) ∧
      (∀ ws, path.widths = some ws → ∀ i w, ws.getD i none = some w →
        i < ws.length → w < 10 →
        i ∈ rejectedIndices (analyzeGeometry path) ∧
        ∀ tl c, c ∈ findCandidates path tl (analyzeGeometry path) →
          ¬ (c.segment.startIdx ≤ i ∧ i ≤ c.segment.endIdx)) := by
  have hv : validateCoords cs = none := by
    unfold validateCoords
    rw [if_neg (by omega)]
    rw [if_pos]
    rw [List.all_eq_true]
    intro co hco
    rcases hshape co hco with h | h <;> simp [h]
  refine ⟨_, by unfold parseCoords; rw [hv], ?_, ?_⟩
  · intro ⟨co, hco, hlen⟩
    have hany : anyWidth cs = true := by
      unfold anyWidth
      rw [List.any_eq_true]
      exact ⟨co, hco, by simp [hlen]⟩
    simp only [hany, if_true]
    simp
  · intro ws hws i w hwi hilen hwlt
    have hws2 : (if anyWidth cs then some (extractWidths cs false) else none) =
        some ws := hws
    have hbelow : (ws.getD i none).getD 0 < 10 := by
      rw [hwi]
      simpa using hwlt
    set path : RiverPath :=
      { points := extractPoints cs
        widths := if anyWidth cs then some (extractWidths cs false) else none
        length := totalLen (extractPoints cs)
        bounds := computeBounds (extractPoints cs) } with hpath
    have hpws : path.widths = some ws := hws
    obtain ⟨sg, hsgmem, hsg1, hsg2⟩ :=
      (findNarrowSections_mem_iff path ws 10 hpws i hilen).mpr hbelow
    have hsgm : sg ∈ (analyzeGeometry path).narrowSections := by
      rw [analyzeGeometry_narrowSections path ws hpws, if_pos (by omega)]
      exact hsgmem
    have hrej : i ∈ rejectedIndices (analyzeGeometry path) :=
      mem_rejected_of_narrow _ hsgm hsg1 hsg2
    refine ⟨hrej, ?_⟩
    intro tl c hc ⟨hi1, hi2⟩
    obtain ⟨s, e, _, _, hceq, _, hfree⟩ :=
      findCandidates_mem path tl (analyzeGeometry path) c hc
    subst hceq
    exact hfree i hi1 hi2 hrej

/-- Expected parse of the negative-width input. -/
noncomputable def path10 : RiverPath :=
  { points := [⟨0, 0⟩, ⟨10, 0⟩, ⟨20, 0⟩]
    widths := some [some 20, some (-5), some 20]
    length := 20
    bounds := ⟨0, 20, 0, 0⟩ }

theorem parseCoords_eval_10 :
    parseCoords [[0, 0, 20], [10, 0, -5], [20, 0, 20]] = .ok path10 := by
  apply parseCoords_eval
  · rfl
  · simp [extractPoints, coordPoint, path10]
  · simp [anyWidth, extractWidths, path10]
  · unfold totalLen pt
    norm_num [path10, Finset.sum_range_succ, ptDist, sqrt_100]
  · unfold computeBounds pt
    norm_num [path10, min_def, max_def, Bounds.mk.injEq]

/-- C10 witness: the theorem applied to the concrete list with width −5
at index 1; that index is rejected as a narrow section. -/
theorem C10_witness : 1 ∈ rejectedIndices (analyzeGeometry path10) := by
  obtain ⟨path, hp, _hwne, hnarrow⟩ :=
    C10_no_width_sign_check [[0, 0, 20], [10, 0, -5], [20, 0, 20]] (by norm_num)
      (by
        intro co hco
        simp at hco
        rcases hco with rfl | rfl | rfl <;> simp)
  have hpe : path = path10 := by
    rw [parseCoords_eval_10] at hp
    injection hp with hp
    exact hp.symm
  subst hpe
  exact (hnarrow [some 20, some (-5), some 20] rfl 1 (-5) (by simp) (by simp)
    (by norm_num)).1

/-! ## C7: centerline extraction of degenerate polygons -/

/-- Seeded minimum over a list (the source seeds at `Infinity`; for the
non-empty lists in play the results agree). -/
noncomputable def listMinD : List ℝ → ℝ
  | [] => 0
  | x :: xs => xs.foldl min x

/-- `WKTParser._findIntersections`: intersect a vertical (`vertical =
true`, line `x = value`) or horizontal line with every ring edge
(consecutive vertices with wraparound). -/
noncomputable def findIntersections (poly : List Point) (value : ℝ)
    (vertical : Bool) : List Point :=
  (List.range poly.length).flatMap fun i =>
    if vertical then
      if ((pt poly i).x ≤ value ∧ value ≤ (pt poly ((i + 1) % poly.length)).x) ∨
          (value ≤ (pt poly i).x ∧ (pt poly ((i + 1) % poly.length)).x ≤ value) then
        if (pt poly ((i + 1) % poly.length)).x ≠ (pt poly i).x then
          [⟨value, (pt poly i).y + ((value - (pt poly i).x) /
            ((pt poly ((i + 1) % poly.length)).x - (pt poly i).x)) *
            ((pt poly ((i + 1) % poly.length)).y - (pt poly i).y)⟩]
        else []
      else []
    else
      if ((pt poly i).y ≤ value ∧ value ≤ (pt poly ((i + 1) % poly.length)).y) ∨
          (value ≤ (pt poly i).y ∧ (pt poly ((i + 1) % poly.length)).y ≤ value) then
        if (pt poly ((i + 1) % poly.length)).y ≠ (pt poly i).y then
          [⟨(pt poly i).x + ((value - (pt poly i).y) /
            ((pt poly ((i + 1) % poly.length)).y - (pt poly i).y)) *
            ((pt poly ((i + 1) % poly.length)).x - (pt poly i).x), value⟩]
        else []
      else []

/-- `Math.min(100, Math.floor(polygonCoords.length / 2))`. -/
def numSamples (n : ℕ) : ℕ := min 100 (n / 2)

/-- Sample position `min + (extent * i) / (numSamples - 1)` (the
subtraction is real, mirroring the JS number arithmetic). -/
noncomputable def sampleAt (mn extent : ℝ) (n i : ℕ) : ℝ :=
  mn + (extent * i) / ((n : ℝ) - 1)

/-- One sample of the horizontal-river branch (vertical cross line at
`x`): centre and spread of the intersection `y`s, skipped when fewer
than 2 intersections (the JS sort-then-first/last is min/max). -/
noncomputable def centerSampleV (poly : List Point) (x : ℝ) : List (List ℝ) :=
  if 2 ≤ (findIntersections poly x true).length then
    [[x, (listMinD ((findIntersections poly x true).map Point.y) +
          listMaxD ((findIntersections poly x true).map Point.y)) / 2,
      listMaxD ((findIntersections poly x true).map Point.y) -
        listMinD ((findIntersections poly x true).map Point.y)]]
  else []

/-- One sample of the vertical-river branch (horizontal cross line at
`y`). -/
noncomputable def centerSampleH (poly : List Point) (y : ℝ) : List (List ℝ) :=
  if 2 ≤ (findIntersections poly y false).length then
    [[(listMinD ((findIntersections poly y false).map Point.x) +
          listMaxD ((findIntersections poly y false).map Point.x)) / 2, y,
      listMaxD ((findIntersections poly y false).map Point.x) -
        listMinD ((findIntersections poly y false).map Point.x)]]
  else []

/-- `WKTParser._smoothCenterline`: window-3 moving average
(`start = max 0 (i-1)`, truncated ℕ subtraction; `end = min len (i+2)`;
`c[2] || 0` is the `getD 2 0`). -/
noncomputable def smoothCenterline (centerline : List (List ℝ)) : List (List ℝ) :=
  if centerline.length < 3 then centerline
  else (List.range centerline.length).map fun i =>
    [(∑ j in Finset.Ico (i - 1) (min centerline.length (i + 2)),
        (centerline.getD j []).getD 0 0) /
      ((Finset.Ico (i - 1) (min centerline.length (i + 2))).card : ℝ),
     (∑ j in Finset.Ico (i - 1) (min centerline.length (i + 2)),
        (centerline.getD j []).getD 1 0) /
      ((Finset.Ico (i - 1) (min centerline.length (i + 2))).card : ℝ),
     (∑ j in Finset.Ico (i - 1) (min centerline.length (i + 2)),
        (centerline.getD j []).getD 2 0) /
      ((Finset.Ico (i - 1) (min centerline.length (i + 2))).card : ℝ)]

/-- `WKTParser.extractCenterline` on a vertex ring.  (When
`numSamples = 1` the JS position divides 0/0 to NaN and collects no
intersections; the `ℝ` convention `x/0 = 0` instead puts that sample at
the box minimum.  The claims below do not exercise that case.) -/
noncomputable def extractCenterline (poly : List Point) :
    Except String (List (List ℝ)) :=
  if poly.length < 3 then .error "Invalid polygon coordinates"
  else if listMaxD (poly.map Point.x) - listMinD (poly.map Point.x) >
      listMaxD (poly.map Point.y) - listMinD (poly.map Point.y) then
    .ok (smoothCenterline ((List.range (numSamples poly.length)).flatMap fun i =>
      centerSampleV poly (sampleAt (listMinD (poly.map Point.x))
        (listMaxD (poly.map Point.x) - listMinD (poly.map Point.x))
        (numSamples poly.length) i)))
  else
    .ok (smoothCenterline ((List.range (numSamples poly.length)).flatMap fun i =>
      centerSampleH poly (sampleAt (listMinD (poly.map Point.y))
        (listMaxD (poly.map Point.y) - listMinD (poly.map Point.y))
        (numSamples poly.length) i)))

/-- The WKT branch of `RiverPathParser.parse`: extract the centerline from
the vertex ring (string-level regex parsing is an external front end),
then run the ordinary coordinate-list validation and construction. -/
noncomputable def parseWKTRing (ring : List Point) : Except String RiverPath :=
  match extractCenterline ring with
  | .error e => .error ("WKT parsing failed: " ++ e)
  | .ok coords => parseCoords coords

/-- A ring whose every cross line meets fewer than 2 edges yields the
empty centerline (successfully). -/
theorem extractCenterline_empty (ring : List Point) (h3 : 3 ≤ ring.length)
    (hV : ∀ x, (findIntersections ring x true).length < 2)
    (hH : ∀ y, (findIntersections ring y false).length < 2) :
    extractCenterline ring = .ok [] := by
  unfold extractCenterline
  rw [if_neg (by omega)]
  have hsmooth : smoothCenterline [] = [] := by
    unfold smoothCenterline
    rw [if_pos (by simp)]
  split_ifs with hdir
  · have hall : (List.range (numSamples ring.length)).flatMap
        (fun i => centerSampleV ring (sampleAt (listMinD (ring.map Point.x))
          (listMaxD (ring.map Point.x) - listMinD (ring.map Point.x))
          (numSamples ring.length) i)) = [] := by
      rw [List.flatMap_eq_nil_iff]
      intro i _
      unfold centerSampleV
      rw [if_neg (by have := hV (sampleAt (listMinD (ring.map Point.x))
        (listMaxD (ring.map Point.x) - listMinD (ring.map Point.x))
        (numSamples ring.length) i); omega)]
    rw [hall, hsmooth]
  · have hall : (List.range (numSamples ring.length)).flatMap
        (fun i => centerSampleH ring (sampleAt (listMinD (ring.map Point.y))
          (listMaxD (ring.map Point.y) - listMinD (ring.map Point.y))
          (numSamples ring.length) i)) = [] := by
      rw [List.flatMap_eq_nil_iff]
      intro i _
      unfold centerSampleH
      rw [if_neg (by have := hH (sampleAt (listMinD (ring.map Point.y))
        (listMaxD (ring.map Point.y) - listMinD (ring.map Point.y))
        (numSamples ring.length) i); omega)]
    rw [hall, hsmooth]

/-- C7 amended: on a ring of ≥3 vertices none of whose cross lines yields
2 or more intersections, centerline extraction SUCCEEDS with an empty
centerline (the code has no CenterlineExtractionFailed error at all), and
the caller then rejects it with the ordinary ≥3-points `InvalidPath`
validation message. -/
theorem C7_degenerate_ring_validation_error (ring : List Point)
    (h3 : 3 ≤ ring.length)
    (hV : ∀ x, (findIntersections ring x true).length < 2)
    (hH : ∀ y, (findIntersections ring y false).length < 2) :
    extractCenterline ring = .ok [] ∧
    parseWKTRing ring = .error "River path must have at least 3 coordinate points" := by
  have he := extractCenterline_empty ring h3 hV hH
  refine ⟨he, ?_⟩
  unfold parseWKTRing
  rw [he]
  rfl

/-- A fully degenerate 4-vertex ring (all vertices coincide). -/
noncomputable def ring4 : List Point := [⟨5, 5⟩, ⟨5, 5⟩, ⟨5, 5⟩, ⟨5, 5⟩]

theorem ring4_no_inter : ∀ (v : ℝ) (b : Bool), findIntersections ring4 v b = [] := by
  intro v b
  unfold findIntersections
  rw [List.flatMap_eq_nil_iff]
  intro i hi
  rw [show ring4.length = 4 from rfl] at hi
  simp only [List.mem_range] at hi
  interval_cases i <;> cases b <;> norm_num [pt, ring4, ite_self]

/-- C7 counterexample: the degenerate 4-vertex ring has zero usable
cross-sections, yet extraction does not fail — it returns an empty
centerline, and the parse then fails later with the generic ≥3-points
validation message, not a CenterlineExtractionFailed error. -/
theorem C7_counterexample :
    3 ≤ ring4.length ∧
    extractCenterline ring4 = .ok [] ∧
    parseWKTRing ring4 = .error "River path must have at least 3 coordinate points" := by
  have h3 : 3 ≤ ring4.length := by norm_num [ring4]
  have hV : ∀ x, (findIntersections ring4 x true).length < 2 := fun x => by
    rw [ring4_no_inter x true]
    norm_num
  have hH : ∀ y, (findIntersections ring4 y false).length < 2 := fun y => by
    rw [ring4_no_inter y false]
    norm_num
  have he := extractCenterline_empty ring4 h3 hV hH
  refine ⟨h3, he, ?_⟩
  unfold parseWKTRing
  rw [he]
  rfl

/-- C7 witness: the amended theorem applied to the concrete degenerate
ring. -/
theorem C7_witness :
    extractCenterline ring4 = .ok [] ∧
    parseWKTRing ring4 = .error "River path must have at least 3 coordinate points" :=
  C7_degenerate_ring_validation_error ring4 (by norm_num [ring4])
    (fun x => by
      rw [ring4_no_inter x true]
      norm_num)
    (fun y => by
      rw [ring4_no_inter y false]
      norm_num)

/-! ## TextPlacer (UIController.js): placeText / interpolatePosition (C9) -/

/-- A position-with-angle result of `TextPlacer.interpolatePosition`. -/
structure PosAngle where
  x : ℝ
  y : ℝ
  angle : ℝ

/-- One character placement pushed by `TextPlacer.placeText`. -/
structure CharPlacement where
  char : Char
  x : ℝ
  y : ℝ
  angle : ℝ
  width : ℝ

/-- The JS runtime error thrown when code reads `points[-1].x`
(`points[-1]` is `undefined`, so the property access throws). -/
def negIndexCrash : String :=
  "TypeError: cannot read property x of undefined"

/-- The walk loop of `interpolatePosition`
(`while (currentIdx < points.length - 1)`), plus the final clamp to the
last point. On a one-point path the clamp reads `points[-1]`, which
throws in JS; this is the `.error` case. (For a zero-length segment with
`remaining ≤ 0` the JS `t = remaining / segmentLength` is `NaN` or
`±Infinity`; Lean division by zero gives `0` instead. No claim touches
that case.) -/
noncomputable def walkLoop (ps : List Point) (i : ℕ) (remaining : ℝ) :
    Except String PosAngle :=
  if _h : i < ps.length - 1 then
    if remaining ≤ ptDist (pt ps i) (pt ps (i + 1)) then
      .ok ⟨(pt ps i).x +
            ((pt ps (i + 1)).x - (pt ps i).x) *
              (remaining / ptDist (pt ps i) (pt ps (i + 1))),
          (pt ps i).y +
            ((pt ps (i + 1)).y - (pt ps i).y) *
              (remaining / ptDist (pt ps i) (pt ps (i + 1))),
          atan2 ((pt ps (i + 1)).y - (pt ps i).y)
            ((pt ps (i + 1)).x - (pt ps i).x)⟩
    else walkLoop ps (i + 1) (remaining - ptDist (pt ps i) (pt ps (i + 1)))
  else if 2 ≤ ps.length then
    .ok ⟨(pt ps (ps.length - 1)).x, (pt ps (ps.length - 1)).y,
        atan2 ((pt ps (ps.length - 1)).y - (pt ps (ps.length - 2)).y)
          ((pt ps (ps.length - 1)).x - (pt ps (ps.length - 2)).x)⟩
  else .error negIndexCrash
termination_by ps.length - 1 - i

/-- `TextPlacer.interpolatePosition`. The JS `startIdx < 0` guard is
unrepresentable for a `ℕ` index and shares its message with the
`startIdx >= points.length` guard modelled here. In the `distance === 0`
branch with `currentIdx = points.length - 1 = 0` the code reads
`points[-1]`, which throws. -/
noncomputable def interpolatePosition (p : RiverPath) (startIdx : ℕ)
    (distance : ℝ) : Except String PosAngle :=
  if p.points.length = 0 then .error "Invalid path: path must have points"
  else if p.points.length ≤ startIdx then
    .error ("Invalid startIdx: " ++ toString startIdx ++ " (path has " ++
      toString p.points.length ++ " points)")
  else if distance = 0 then
    if startIdx < p.points.length - 1 then
      .ok ⟨(pt p.points startIdx).x, (pt p.points startIdx).y,
          atan2 ((pt p.points (startIdx + 1)).y - (pt p.points startIdx).y)
            ((pt p.points (startIdx + 1)).x - (pt p.points startIdx).x)⟩
    else if startIdx = 0 then .error negIndexCrash
    else
      .ok ⟨(pt p.points startIdx).x, (pt p.points startIdx).y,
          atan2 ((pt p.points startIdx).y - (pt p.points (startIdx - 1)).y)
            ((pt p.points startIdx).x - (pt p.points (startIdx - 1)).x)⟩
  else walkLoop p.points startIdx distance

/-- The per-character loop of `placeText`. Character width comes from the
measurement context; outside a browser `getMeasureContext` returns the
mock whose `measureText` yields `fontSize * 0.6` for every character. -/
noncomputable def placeTextGo (p : RiverPath) (startIdx : ℕ) (fontSize : ℝ)
    (chars : List Char) (currentDistance : ℝ) :
    Except String (List CharPlacement) :=
  match chars with
  | [] => .ok []
  | ch :: rest =>
    match interpolatePosition p startIdx
        (currentDistance + fontSize * 0.6 / 2) with
    | .error e => .error e
    | .ok pos =>
      match placeTextGo p startIdx fontSize rest
          (currentDistance + fontSize * 0.6) with
      | .error e => .error e
      | .ok l => .ok (⟨ch, pos.x, pos.y, pos.angle, fontSize * 0.6⟩ :: l)

/-- `TextPlacer.placeText`: empty-text check first, then path and
`startIdx` validation, then one placement per character at distance
`currentDistance + charWidth / 2`. -/
noncomputable def placeText (text : String) (p : RiverPath) (startIdx : ℕ)
    (fontSize : ℝ) : Except String (List CharPlacement) :=
  if text.length = 0 then .ok []
  else if p.points.length = 0 then
    .error "Invalid path: path must have points"
  else if p.points.length ≤ startIdx then
    .error ("Invalid startIdx: " ++ toString startIdx ++ " (path has " ++
      toString p.points.length ++ " points)")
  else placeTextGo p startIdx fontSize text.toList 0

theorem toList_length (s : String) : s.toList.length = s.length := rfl

theorem walkLoop_ok (ps : List Point) (h2 : 2 ≤ ps.length) :
    ∀ fuel i remaining, ps.length - 1 - i ≤ fuel →
      ∃ pos, walkLoop ps i remaining = .ok pos := by
  intro fuel
  induction fuel with
  | zero =>
    intro i remaining hfuel
    rw [walkLoop.eq_def, dif_neg (by omega : ¬ i < ps.length - 1),
      if_pos h2]
    exact ⟨_, rfl⟩
  | succ fuel ih =>
    intro i remaining hfuel
    rw [walkLoop.eq_def]
    by_cases hi : i < ps.length - 1
    · rw [dif_pos hi]
      by_cases hr : remaining ≤ ptDist (pt ps i) (pt ps (i + 1))
      · rw [if_pos hr]
        exact ⟨_, rfl⟩
      · rw [if_neg hr]
        exact ih (i + 1) (remaining - ptDist (pt ps i) (pt ps (i + 1)))
          (by omega)
    · rw [dif_neg hi, if_pos h2]
      exact ⟨_, rfl⟩

theorem walkLoop_clamp (ps : List Point) (h2 : 2 ≤ ps.length) :
    ∀ fuel i remaining, ps.length - 1 - i ≤ fuel →
      windowLen ps i (ps.length - 1) < remaining →
      walkLoop ps i remaining = .ok
        ⟨(pt ps (ps.length - 1)).x, (pt ps (ps.length - 1)).y,
         atan2 ((pt ps (ps.length - 1)).y - (pt ps (ps.length - 2)).y)
           ((pt ps (ps.length - 1)).x - (pt ps (ps.length - 2)).x)⟩ := by
  intro fuel
  induction fuel with
  | zero =>
    intro i remaining hfuel hlt
    rw [walkLoop.eq_def, dif_neg (by omega : ¬ i < ps.length - 1),
      if_pos h2]
  | succ fuel ih =>
    intro i remaining hfuel hlt
    rw [walkLoop.eq_def]
    by_cases hi : i < ps.length - 1
    · rw [dif_pos hi]
      have hsplit : windowLen ps i (ps.length - 1) =
          ptDist (pt ps i) (pt ps (i + 1)) +
            windowLen ps (i + 1) (ps.length - 1) := by
        unfold windowLen
        rw [Finset.sum_eq_sum_Ico_succ_bot hi]
      rw [hsplit] at hlt
      have hrest := windowLen_nonneg ps (i + 1) (ps.length - 1)
      rw [if_neg (by linarith :
        ¬ remaining ≤ ptDist (pt ps i) (pt ps (i + 1)))]
      exact ih (i + 1) (remaining - ptDist (pt ps i) (pt ps (i + 1)))
        (by omega) (by linarith)
    · rw [dif_neg hi, if_pos h2]

theorem interpolatePosition_ok (p : RiverPath) (startIdx : ℕ)
    (distance : ℝ) (h2 : 2 ≤ p.points.length)
    (hs : startIdx < p.points.length) :
    ∃ pos, interpolatePosition p startIdx distance = .ok pos := by
  unfold interpolatePosition
  rw [if_neg (by omega : ¬ p.points.length = 0),
    if_neg (by omega : ¬ p.points.length ≤ startIdx)]
  by_cases hd : distance = 0
  · rw [if_pos hd]
    by_cases hlt : startIdx < p.points.length - 1
    · rw [if_pos hlt]
      exact ⟨_, rfl⟩
    · rw [if_neg hlt, if_neg (by omega : ¬ startIdx = 0)]
      exact ⟨_, rfl⟩
  · rw [if_neg hd]
    exact walkLoop_ok p.points h2 (p.points.length - 1 - startIdx)
      startIdx distance le_rfl

theorem placeTextGo_ok (p : RiverPath) (startIdx : ℕ) (fontSize : ℝ)
    (h2 : 2 ≤ p.points.length) (hs : startIdx < p.points.length) :
    ∀ chars d0, ∃ l, placeTextGo p startIdx fontSize chars d0 = .ok l ∧
      List.map CharPlacement.char l = chars := by
  intro chars
  induction chars with
  | nil =>
    intro d0
    exact ⟨[], rfl, rfl⟩
  | cons ch rest ih =>
    intro d0
    obtain ⟨pos, hpos⟩ :=
      interpolatePosition_ok p startIdx (d0 + fontSize * 0.6 / 2) h2 hs
    obtain ⟨l, hl, hlc⟩ := ih (d0 + fontSize * 0.6)
    refine ⟨⟨ch, pos.x, pos.y, pos.angle, fontSize * 0.6⟩ :: l, ?_, ?_⟩
    · simp only [placeTextGo]
      rw [hpos, hl]
    · simp [hlc]

/-- C9 (corrected). The spec claims the per-character placement contract
holds "for every path with at least one point"; in the code it holds
only for paths with at least TWO points, because on a one-point path any
non-empty label makes `interpolatePosition` read `points[-1]` (either in
the zero-distance last-point branch or in the end-of-walk clamp), which
throws — see the counterexample. Amended statement, for
`TextPlacer.placeText` and `interpolatePosition`: (1) the empty label
always yields an empty placement list; (2) on a path with at least two
points and `startIdx` in range, any label yields exactly one placement
per character, in label order; (3) a non-empty label on a path with no
points fails with the invalid-path error; (4) a non-empty label with
`startIdx` out of range fails with the invalid-startIdx error; (5) a
target distance beyond the remaining arclength clamps to the final point
with the last segment's direction rather than failing. -/
theorem C9_placeText_per_char_or_crash (p : RiverPath) (startIdx : ℕ)
    (fontSize : ℝ) (text : String) :
    placeText "" p startIdx fontSize = .ok [] ∧
    (2 ≤ p.points.length → startIdx < p.points.length →
      ∃ l, placeText text p startIdx fontSize = .ok l ∧
        l.length = text.length ∧
        List.map CharPlacement.char l = text.toList) ∧
    (text.length ≠ 0 → p.points.length = 0 →
      placeText text p startIdx fontSize =
        .error "Invalid path: path must have points") ∧
    (text.length ≠ 0 → p.points.length ≠ 0 →
      p.points.length ≤ startIdx →
      placeText text p startIdx fontSize =
        .error ("Invalid startIdx: " ++ toString startIdx ++
          " (path has " ++ toString p.points.length ++ " points)")) ∧
    (2 ≤ p.points.length → startIdx < p.points.length →
      ∀ d : ℝ, d ≠ 0 →
        windowLen p.points startIdx (p.points.length - 1) < d →
        interpolatePosition p startIdx d = .ok
          ⟨(pt p.points (p.points.length - 1)).x,
           (pt p.points (p.points.length - 1)).y,
           atan2 ((pt p.points (p.points.length - 1)).y -
               (pt p.points (p.points.length - 2)).y)
             ((pt p.points (p.points.length - 1)).x -
               (pt p.points (p.points.length - 2)).x)⟩) := by
  refine ⟨?_, ?_, ?_, ?_, ?_⟩
  · unfold placeText
    rw [if_pos (by decide : String.length "" = 0)]
  · intro h2 hs
    obtain ⟨l, hl, hlc⟩ :=
      placeTextGo_ok p startIdx fontSize h2 hs text.toList 0
    refine ⟨l, ?_, ?_, hlc⟩
    · unfold placeText
      by_cases ht : text.length = 0
      · rw [if_pos ht]
        have hnil : text.toList = [] := by
          refine List.length_eq_zero.mp ?_
          rw [toList_length]
          exact ht
        rw [hnil] at hlc
        have hl0 : l = [] := by
          refine List.length_eq_zero.mp ?_
          have := congrArg List.length hlc
          simpa using this
        rw [hl0]
      · rw [if_neg ht, if_neg (by omega : ¬ p.points.length = 0),
          if_neg (by omega : ¬ p.points.length ≤ startIdx)]
        exact hl
    · have hml := congrArg List.length hlc
      rw [List.length_map] at hml
      rw [toList_length] at hml
      exact hml
  · intro ht h0
    unfold placeText
    rw [if_neg ht, if_pos h0]
  · intro ht h0 hge
    unfold placeText
    rw [if_neg ht, if_neg h0, if_pos hge]
  · intro h2 hs d hd hlen
    unfold interpolatePosition
    rw [if_neg (by omega : ¬ p.points.length = 0),
      if_neg (by omega : ¬ p.points.length ≤ startIdx), if_neg hd]
    exact walkLoop_clamp p.points h2 (p.points.length - 1 - startIdx)
      startIdx d le_rfl hlen

/-- A one-point path: accepted by the validation guard
(`points.length === 0` is false, `startIdx = 0` is in range). -/
noncomputable def path1pt : RiverPath :=
  { points := [⟨0, 0⟩], widths := none, length := 0,
    bounds := ⟨0, 0, 0, 0⟩ }

/-- C9 counterexample: on a one-point path with the valid `startIdx = 0`,
placing the non-empty label "A" does not return one placement per
character — `interpolatePosition` walks past the single point and the
clamp reads `points[-1]`, throwing a TypeError. This refutes the claim
for "every path with at least one point". -/
theorem C9_counterexample :
    path1pt.points.length = 1 ∧
    placeText "A" path1pt 0 16 = .error negIndexCrash := by
  refine ⟨rfl, ?_⟩
  have hip : interpolatePosition path1pt 0 (0 + 16 * 0.6 / 2) =
      .error negIndexCrash := by
    unfold interpolatePosition
    rw [if_neg (by norm_num [path1pt] : ¬ path1pt.points.length = 0),
      if_neg (by norm_num [path1pt] : ¬ path1pt.points.length ≤ 0),
      if_neg (by norm_num : ¬ (0 : ℝ) + 16 * 0.6 / 2 = 0),
      walkLoop.eq_def,
      dif_neg (by norm_num [path1pt] : ¬ 0 < path1pt.points.length - 1),
      if_neg (by norm_num [path1pt] : ¬ 2 ≤ path1pt.points.length)]
  unfold placeText
  rw [if_neg (by decide : ¬ String.length "A" = 0),
    if_neg (by norm_num [path1pt] : ¬ path1pt.points.length = 0),
    if_neg (by norm_num [path1pt] : ¬ path1pt.points.length ≤ 0)]
  rw [show "A".toList = ['A'] from rfl]
  simp only [placeTextGo]
  rw [hip]

/-- A straight two-point path used by the C9 witness. -/
noncomputable def path2pt : RiverPath :=
  { points := [⟨0, 0⟩, ⟨100, 0⟩], widths := none, length := 100,
    bounds := ⟨0, 100, 0, 0⟩ }

/-- C9 witness: the amended theorem at a concrete two-point path. -/
theorem C9_witness :
    placeText "" path2pt 0 16 = .ok [] ∧
    ∃ l, placeText "AB" path2pt 0 16 = .ok l ∧
      l.length = String.length "AB" ∧
      List.map CharPlacement.char l = "AB".toList := by
  have h := C9_placeText_per_char_or_crash path2pt 0 16 "AB"
  exact ⟨h.1, h.2.1 (by norm_num [path2pt]) (by norm_num [path2pt])⟩

end RiverPlacement
